import Mathlib

/-!
Verification of the `vali` validation library (Go) against its
natural-language specification.

The development shallowly embeds the library's core
(`src/unnamed/part_000`, the `Validator` engine, and
`src/unnamed/part_004`, the built-in checkers) into Lean:

* Go `reflect.Value`s are modelled by the inductive `Value`
  (invalid values, strings, signed/unsigned integers, floats, pointers
  and structs; slice, map, chan and func kinds are outside the model,
  none of the verified claims depends on them);
* checkers are first-order data (`Chk`) interpreted by `runChk`,
  mirroring the closures built in the Go source;
* Go errors are the inductive `VErr`, whose `render` mirrors the exact
  `fmt.Errorf` message formats of the source;
* functions of the Go standard library that the source delegates to
  (`regexp`, pieces of `strconv`) are modelled where the claims exercise
  them and abstracted by constants where no claim depends on them (each
  such constant carries a comment saying so).
-/

namespace Vali

/-- Kinds of `reflect.Value` covered by the model, mirroring
`reflect.Kind` for the kinds the claims exercise. -/
inductive Kind where
  | kInvalid
  | kString
  | kInt
  | kUint
  | kFloat
  | kPtr
  | kStruct
deriving DecidableEq, Repr

mutual

/-- Model of a Go `reflect.Value`.

`vInvalid` is the invalid `reflect.Value` (e.g. the result of `Elem()`
on a nil pointer); `vNilPtr` is a nil pointer of any target type;
`vPtrTo v` is a non-nil pointer to `v`; `vFloat f` is a value of a
float kind (modelled at `float64` width); `vStruct fs` is a struct
whose fields (in declaration order) are `fs`. -/
inductive Value where
  | vInvalid
  | vStr (s : String)
  | vInt (n : Int)
  | vUint (n : Nat)
  | vFloat (f : Float)
  | vNilPtr
  | vPtrTo (v : Value)
  | vStruct (fs : Fields)
deriving Repr

/-- Ordered field list of a struct value: each field carries its name,
whether it is exported, the raw contents of the validator's struct tag
(the string `reflTag.Get(v.tag)` would return) and its value. -/
inductive Fields where
  | fnil
  | fcons (name : String) (exported : Bool) (tag : String) (val : Value) (rest : Fields)
deriving Repr

end

/-- `Value.Kind()` of the model. -/
def kindOf : Value → Kind
  | .vInvalid => .kInvalid
  | .vStr _ => .kString
  | .vInt _ => .kInt
  | .vUint _ => .kUint
  | .vFloat _ => .kFloat
  | .vNilPtr => .kPtr
  | .vPtrTo _ => .kPtr
  | .vStruct _ => .kStruct

/-- The pointer fast-forward loop `for val.Kind() == reflect.Ptr
\x7b val = val.Elem() \x7d` of `Validator.validate`: `Elem()` of a non-nil
pointer is the pointee, `Elem()` of a nil pointer is the invalid
`reflect.Value`, on which the loop stops. -/
def derefAll : Value → Value
  | .vPtrTo v => derefAll v
  | .vNilPtr => .vInvalid
  | v => v

mutual

/-- `isZero` of the source (`reflect.Value.IsZero` wrapped in a
`recover` that turns the panic on invalid values into `true`). -/
def isZero : Value → Bool
  | .vInvalid => true
  | .vStr s => s = ""
  | .vInt n => n = 0
  | .vUint n => n = 0
  | .vFloat f => f == 0
  | .vNilPtr => true
  | .vPtrTo _ => false
  | .vStruct fs => isZeroF fs

/-- `IsZero` on a struct: all fields are zero. -/
def isZeroF : Fields → Bool
  | .fnil => true
  | .fcons _ _ _ val rest => isZero val && isZeroF rest

end

/-- Go `%q` of a string. The claims only exercise strings without
characters needing escapes, for which `%q` just adds double quotes. -/
def goQuote (s : String) : String :=
  "\"" ++ s ++ "\""

/-- Go `%q` of a byte/rune, for characters not needing escapes. -/
def goQuoteChar (c : Char) : String :=
  "'" ++ String.singleton c ++ "'"

/-- ASCII white space as recognised by `unicode.IsSpace` (the
additional Unicode space code points Go strips never occur in any
claim). -/
def goIsSpace (c : Char) : Bool :=
  c = ' ' ∨ c = '\t' ∨ c = '\n' ∨ c = '\r' ∨ c = Char.ofNat 11 ∨ c = Char.ofNat 12

/-- `strings.TrimSpace`: strip leading and trailing white space. -/
def trimSpace (s : String) : String :=
  String.mk (((s.data.dropWhile goIsSpace).reverse.dropWhile goIsSpace).reverse)

/-- Whether `pat` is a prefix of `l`. -/
def startsWithL : List Char → List Char → Bool
  | [], _ => true
  | _ :: _, [] => false
  | p :: ps, c :: cs => p = c && startsWithL ps cs

/-- Scanning core of `strings.Split` for a nonempty separator (the
only shape the library uses): emit the accumulated segment at each
separator occurrence. `fuel` starts at the length of the scanned list
and strictly bounds the recursion, so the `0` arm is never reached. -/
def goSplitAux (sep : List Char) : Nat → List Char → List Char → List (List Char)
  | _, [], acc => [acc.reverse]
  | 0, l, acc => [acc.reverse ++ l]
  | fuel + 1, c :: cs, acc =>
    if startsWithL sep (c :: cs) then
      acc.reverse :: goSplitAux sep fuel (List.drop (sep.length - 1) cs) []
    else goSplitAux sep fuel cs (c :: acc)

/-- `strings.Split(s, sep)` (and the segments of `strings.SplitSeq`)
for a nonempty separator. -/
def goSplit (s sep : String) : List String :=
  (goSplitAux sep.data s.data.length s.data []).map String.mk

/-- Scanning core of `strings.ReplaceAll` for a nonempty pattern, with
the same fuel bound as `goSplitAux`. -/
def goReplaceAux (old new : List Char) : Nat → List Char → List Char
  | _, [] => []
  | 0, l => l
  | fuel + 1, c :: cs =>
    if startsWithL old (c :: cs) then
      new ++ goReplaceAux old new fuel (List.drop (old.length - 1) cs)
    else c :: goReplaceAux old new fuel cs

/-- `strings.ReplaceAll(s, old, new)` for a nonempty `old`. -/
def goReplaceAll (s old new : String) : String :=
  String.mk (goReplaceAux old.data new.data s.data.length s.data)

/-- `strings.ToLower`, for the ASCII range the claims exercise. -/
def goToLower (s : String) : String :=
  String.mk (s.data.map fun c =>
    if 'A' ≤ c ∧ c ≤ 'Z' then Char.ofNat (c.toNat + 32) else c)

/-- `strings.Join(path, ".")`. -/
def dotted (path : List String) : String :=
  String.intercalate (".") path

/-- Model of the Go error values produced by the library, mirroring the
wrapping structure built with `fmt.Errorf` and `%w`. -/
inductive VErr where
  /-- `ErrRequired` (\"value missing\"). -/
  | required
  /-- A leaf error with a plain message (checker-internal errors and
  `strconv` errors). -/
  | msg (s : String)
  /-- `fmt.Errorf("%s %w: %w", name, ErrCheckFailed, err)`. -/
  | checkFailed (name : String) (e : VErr)
  /-- `fmt.Errorf("%w %s", ErrInvalidChecker, seg)`. -/
  | invalidChecker (seg : String)
  /-- `fmt.Errorf("%w %s: %w", ErrInvalidChecker, seg, err)` (maker
  construction failure). -/
  | invalidCheckerWrap (seg : String) (e : VErr)
  /-- `fmt.Errorf("%s: %w, will not validate", path, ErrPrivateField)`. -/
  | privateField (path : List String)
  /-- The scope-path wrap added by `validateScalar`'s deferred
  function: `fmt.Errorf("%s: %w", strings.Join(scope, "."), err)`. -/
  | scoped (path : List String) (e : VErr)
deriving DecidableEq, Repr

/-- `Error()` of the modelled errors: the exact message strings the Go
errors render to. -/
def VErr.render : VErr → String
  | .required => "value missing"
  | .msg s => s
  | .checkFailed name e => name ++ " check failed: " ++ e.render
  | .invalidChecker seg => "invalid checker " ++ seg
  | .invalidCheckerWrap seg e => "invalid checker " ++ seg ++ ": " ++ e.render
  | .privateField path => dotted path ++ ": private field, will not validate"
  | .scoped path e => dotted path ++ ": " ++ e.render

/-! ## Models of the `strconv` parsing functions used by `sizeCmp` -/

/-- Value of a nonempty all-digit character list, or `none` on an empty
list or a non-digit character (the digit-accumulating core of
`strconv.ParseInt`/`ParseUint`/`Atoi` for base 10). -/
def decDigits? (cs : List Char) : Option Nat :=
  match cs with
  | [] => none
  | _ =>
    cs.foldl
      (fun acc c => acc.bind (fun n => if c.isDigit then some (n * 10 + (c.toNat - 48)) else none))
      (some 0)

/-- Largest `int64`. -/
def int64Max : Int := 9223372036854775807

/-- Smallest `int64`. -/
def int64Min : Int := -9223372036854775808

/-- Largest `uint64`. -/
def uint64Max : Nat := 18446744073709551615

/-- `strconv.ParseInt(s, 10, 64)`: optional sign followed by decimal
digits, with the `int64` range check; errors carry the messages
`NumError.Error()` would render. -/
def goParseInt (s : String) : Except String Int :=
  let errSyn := "strconv.ParseInt: parsing " ++ goQuote s ++ ": invalid syntax"
  let errRange := "strconv.ParseInt: parsing " ++ goQuote s ++ ": value out of range"
  let (neg, ds) :=
    match s.data with
    | '+' :: rest => (false, rest)
    | '-' :: rest => (true, rest)
    | l => (false, l)
  match decDigits? ds with
  | none => .error errSyn
  | some n =>
    let val : Int := if neg then -(n : Int) else (n : Int)
    if val < int64Min ∨ int64Max < val then .error errRange else .ok val

/-- `strconv.ParseUint(s, 10, 64)`: decimal digits with no sign
allowed, with the `uint64` range check. -/
def goParseUint (s : String) : Except String Nat :=
  let errSyn := "strconv.ParseUint: parsing " ++ goQuote s ++ ": invalid syntax"
  let errRange := "strconv.ParseUint: parsing " ++ goQuote s ++ ": value out of range"
  match decDigits? s.data with
  | none => .error errSyn
  | some n => if uint64Max < n then .error errRange else .ok n

/-- `strconv.Atoi`: same parse as `ParseInt(s, 10, 64)` on a 64-bit
platform, but errors report the operation as `Atoi`. -/
def goAtoi (s : String) : Except String Int :=
  let errSyn := "strconv.Atoi: parsing " ++ goQuote s ++ ": invalid syntax"
  let errRange := "strconv.Atoi: parsing " ++ goQuote s ++ ": value out of range"
  let (neg, ds) :=
    match s.data with
    | '+' :: rest => (false, rest)
    | '-' :: rest => (true, rest)
    | l => (false, l)
  match decDigits? ds with
  | none => .error errSyn
  | some n =>
    let val : Int := if neg then -(n : Int) else (n : Int)
    if val < int64Min ∨ int64Max < val then .error errRange else .ok val

/-! ## Float formatting and parsing

Go formats and parses floats through `fmt`/`strconv`, which are
standard-library code outside this repository. The `%.0f` formatting
used by `luhn` and `sizeCmp` is modelled exactly (the rounded integer
part of the value the float represents, printed in plain decimal);
the remaining conversions are abstracted, with a comment on each. -/

/-- `num / 2^k` rounded to the nearest integer, ties to even — the
rounding `strconv` applies to the exact represented value when
formatting with zero fractional digits. -/
def divRoundHalfEven (num k : Nat) : Nat :=
  let den := 2 ^ k
  let q := num / den
  let r := num % den
  if 2 * r < den then q
  else if 2 * r > den then q + 1
  else if q % 2 = 0 then q else q + 1

/-- `fmt.Sprintf("%.0f", f)`: the exact value `m · 2^e` the float
represents, rounded to the nearest integer (ties to even) and printed
in plain decimal — never scientific notation, never a decimal point;
`NaN` and `±Inf` print as in Go. (The sign of negative zero is
dropped; the caller strips dashes right after, so no checker can
observe the difference.) -/
def goFmtF0 (f : Float) : String :=
  if f.isNaN then ("NaN")
  else if f.isInf then (if f < 0 then ("-Inf") else ("+Inf"))
  else
    match f.toRatParts with
    | none => ("NaN")
    | some (m, e) =>
      let n : Nat :=
        if 0 ≤ e then m.natAbs * 2 ^ e.toNat
        else divRoundHalfEven m.natAbs (-e).toNat
      (if m < 0 then ("-") else ("")) ++ toString n

/-- Abstracted default `fmt` formatting of a float (`%v`, the shortest
round-trip form produced by `strconv`, outside this repository); no
claim depends on it — the `luhn` and comparison checkers format floats
with `%.0f` (`goFmtF0`), not with this. -/
def goFmtG (f : Float) : String :=
  toString f

/-- Model of `strconv.ParseFloat` for the plain decimal forms
(optional sign, digits, optional fraction); the exponent and special
forms the standard library also accepts are outside the model, and the
final digits-to-binary conversion is the standard library's. No claim
depends on float argument parsing. -/
def goParseFloat (s : String) : Except String Float :=
  let errSyn := "strconv.ParseFloat: parsing " ++ goQuote s ++ ": invalid syntax"
  let (neg, ds) :=
    match s.data with
    | '+' :: rest => (false, rest)
    | '-' :: rest => (true, rest)
    | l => (false, l)
  let ipart := ds.takeWhile Char.isDigit
  let rest := ds.dropWhile Char.isDigit
  let frac? : Option (List Char) :=
    match rest with
    | [] => some []
    | '.' :: fr => if fr.all Char.isDigit then some fr else none
    | _ => none
  match frac? with
  | none => .error errSyn
  | some frac =>
    if ipart.isEmpty && frac.isEmpty then .error errSyn
    else
      let mantissa := (ipart ++ frac).foldl (fun n c => n * 10 + (c.toNat - 48)) 0
      let mag := Float.ofScientific mantissa true frac.length
      .ok (if neg then -mag else mag)

/-- `cmp.Compare` at `float64`: NaN sorts below everything and equals
itself. -/
def goCmpFloat (a b : Float) : Ordering :=
  if a.isNaN then (if b.isNaN then .eq else .lt)
  else if b.isNaN then .gt
  else if a < b then .lt
  else if a > b then .gt
  else .eq

/-! ## `fmt.Sprint` -/

mutual

/-- `fmt.Sprint(v.Interface())` for the modelled values. Strings print
as themselves and integers in decimal, exactly as in Go; the pointer
and invalid cases are unreachable through the engine (values are
dereferenced before any checker runs) and hold placeholders. -/
def sprint : Value → String
  | .vStr s => s
  | .vInt n => toString n
  | .vUint n => toString n
  | .vFloat f => goFmtG f
  | .vInvalid => "<invalid reflect.Value>"
  | .vNilPtr => "<nil>"
  | .vPtrTo v => "&" ++ sprint v
  | .vStruct fs => "\x7b" ++ sprintF fs ++ "\x7d"

/-- `fmt` prints a struct as its field values separated by spaces. -/
def sprintF : Fields → String
  | .fnil => ""
  | .fcons _ _ _ val .fnil => sprint val
  | .fcons _ _ _ val rest => sprint val ++ " " ++ sprintF rest

end

/-! ## `sizeCmp` (the eq/ne/min/max comparison checkers) -/

/-- `expOutcome` of the source (`expLess = -1`, `expEq = 0`,
`expMore = 1`, `expNotEq = 2`). -/
inductive ExpO where
  | less
  | eqO
  | more
  | notEq
deriving DecidableEq, Repr

/-- `expLabel` of the source. -/
def expLabel : ExpO → String
  | .less => "more than"
  | .more => "less than"
  | .eqO => "not equal to"
  | .notEq => "equal to"

/-- `cmp.Compare` cast to `expOutcome` (`-1`, `0` or `1`). -/
def ordToExp : Ordering → ExpO
  | .lt => .less
  | .eq => .eqO
  | .gt => .more

/-- `cmp2` of the source: whether the comparison outcome violates the
expectation. -/
def cmp2 (a b : Int) (exp : ExpO) : Bool :=
  let act := ordToExp (compare a b)
  match exp with
  | .less => act ≠ .less && act ≠ .eqO
  | .more => act ≠ .more && act ≠ .eqO
  | .eqO => act ≠ .eqO
  | .notEq => act = .eqO

/-- The generic `cmp2` instantiated at `float64` (via `cmp.Compare`'s
float ordering). -/
def cmp2Float (a b : Float) (exp : ExpO) : Bool :=
  let act := ordToExp (goCmpFloat a b)
  match exp with
  | .less => act ≠ .less && act ≠ .eqO
  | .more => act ≠ .more && act ≠ .eqO
  | .eqO => act ≠ .eqO
  | .notEq => act = .eqO

/-- Go `len()` of a string: its length in bytes. -/
def goLen (s : String) : Nat :=
  (s.data.map Char.utf8Size).sum

/-- The length-comparison arm of `sizeCmp` (its `default` case): one
more pointer fast-forward (returning success on a nil pointer or an
invalid value), then `Len()` on strings, or an \"unsupported kind\"
error otherwise. Arrays, slices, maps and chans are outside the model. -/
def lenCmp (exp : ExpO) (x : Int) : Value → Option VErr
  | .vPtrTo w => lenCmp exp x w
  | .vNilPtr => none
  | .vInvalid => none
  | .vStr s =>
    if cmp2 (goLen s : Int) x exp then
      some (.msg ("len " ++ toString (goLen s) ++ " is " ++ expLabel exp ++ " " ++ toString x))
    else none
  | .vInt _ => some (.msg ("len check failed: unsupported kind int"))
  | .vUint _ => some (.msg ("len check failed: unsupported kind uint"))
  | .vFloat _ => some (.msg ("len check failed: unsupported kind float64"))
  | .vStruct _ => some (.msg ("len check failed: unsupported kind struct"))

/-- The checker closure returned by `sizeCmp(arg, exp)`: for `CanInt`
values parse `arg` as `int64` and compare, for `CanUint` values as
`uint64`, for `CanFloat` values as a float (failures formatted with
`%.0f`), otherwise `Atoi` the argument and compare against `len()`.
The Go `recover` wrapper never fires in the modelled branches. -/
def runCmp (exp : ExpO) (arg : String) (v : Value) : Option VErr :=
  match v with
  | .vInt y =>
    match goParseInt arg with
    | .error e => some (.msg e)
    | .ok x =>
      if cmp2 y x exp then
        some (.msg (toString y ++ " is " ++ expLabel exp ++ " " ++ toString x))
      else none
  | .vUint y =>
    match goParseUint arg with
    | .error e => some (.msg e)
    | .ok x =>
      if cm2u y x exp then
        some (.msg (toString y ++ " is " ++ expLabel exp ++ " " ++ toString x))
      else none
  | .vFloat y =>
    match goParseFloat arg with
    | .error e => some (.msg e)
    | .ok x =>
      if cmp2Float y x exp then
        some (.msg (goFmtF0 y ++ " is " ++ expLabel exp ++ " " ++ goFmtF0 x))
      else none
  | w =>
    match goAtoi arg with
    | .error e => some (.msg e)
    | .ok x => lenCmp exp x w
where
  /-- `cmp2` instantiated at `uint64`. -/
  cm2u (a b : Nat) (exp : ExpO) : Bool := cmp2 (a : Int) (b : Int) exp

/-! ## Checksum algorithms -/

/-- The right-to-left digit loop of `luhn`: the input is the reversed
character list, `dbl` says whether the current digit is doubled.
Returns the first non-digit character from the right, or the digit
sum. -/
def luhnSum : List Char → Bool → Except Char Nat
  | [], _ => .ok 0
  | c :: rest, dbl =>
    if '0' ≤ c ∧ c ≤ '9' then
      let d0 := c.toNat - 48
      let d := if dbl then (if d0 * 2 > 9 then d0 * 2 - 9 else d0 * 2) else d0
      match luhnSum rest (!dbl) with
      | .error e => .error e
      | .ok n => .ok (n + d)
    else .error c

/-- `luhn` applied to an already-normalised string (after the numeric
formatting of the kind switch): remove spaces and dashes, reject the
empty string and non-digits, and require the digit sum to be a multiple
of 10. -/
def luhnStr (s : String) : Option VErr :=
  let s := goReplaceAll (goReplaceAll s (" ") ("")) ("-") ("")
  if s = "" then some (.msg (goQuote s ++ " is not a valid input for Luhn validation"))
  else
    match luhnSum s.data.reverse false with
    | .error c => some (.msg (goQuote s ++ " contains non-digit character: " ++ goQuoteChar c))
    | .ok sum =>
      if sum % 10 ≠ 0 then
        some (.msg (goQuote s ++ " is not valid according to the Luhn algorithm"))
      else none

/-- The `luhn` checker's kind switch: float kinds are formatted with
`%.0f` (no scientific notation) and any decimal point removed; integer
kinds are formatted with `%d` (decimal, identical to `fmt.Sprint` for
integers); everything else with `fmt.Sprint`. Then the common string
path. -/
def luhnGo (v : Value) : Option VErr :=
  let s :=
    match v with
    | .vFloat f => goReplaceAll (goFmtF0 f) (".") ("")
    | .vInt n => toString n
    | .vUint n => toString n
    | w => sprint w
  luhnStr s

/-- The weighted digit sum over the first 9 ISBN-10 characters; `i` is
the 0-based position of the head character. Returns the first invalid
character or the sum. -/
def isbn10Sum : List Char → Nat → Except Char Nat
  | [], _ => .ok 0
  | c :: rest, i =>
    if '0' ≤ c ∧ c ≤ '9' then
      match isbn10Sum rest (i + 1) with
      | .error e => .error e
      | .ok n => .ok (n + (c.toNat - 48) * (10 - i))
    else .error c

/-- `validateISBN10` of the source, over a 10-character string. -/
def validateISBN10 (s : String) : Option VErr :=
  let cs := s.data
  match isbn10Sum (cs.take 9) 0 with
  | .error c => some (.msg ("invalid character in ISBN-10: " ++ String.singleton c))
  | .ok sum9 =>
    match cs.drop 9 with
    | [] => none
    | last :: _ =>
      if last = 'X' ∨ last = 'x' then
        if (sum9 + 10) % 11 ≠ 0 then
          some (.msg (goQuote s ++ " is not a valid ISBN-10 (checksum failed)"))
        else none
      else if '0' ≤ last ∧ last ≤ '9' then
        if (sum9 + (last.toNat - 48)) % 11 ≠ 0 then
          some (.msg (goQuote s ++ " is not a valid ISBN-10 (checksum failed)"))
        else none
      else some (.msg ("invalid character in ISBN-10: " ++ String.singleton last))

/-- The weighted digit sum over the first 12 ISBN-13 characters
(weight 1 at even 0-based positions, 3 at odd ones); `i` is the
0-based position of the head character. -/
def isbn13Sum : List Char → Nat → Except Char Nat
  | [], _ => .ok 0
  | c :: rest, i =>
    if '0' ≤ c ∧ c ≤ '9' then
      match isbn13Sum rest (i + 1) with
      | .error e => .error e
      | .ok n => .ok (n + (if i % 2 = 0 then 1 else 3) * (c.toNat - 48))
    else .error c

/-- `validateISBN13` of the source, over a 13-character string. -/
def validateISBN13 (s : String) : Option VErr :=
  let cs := s.data
  match isbn13Sum (cs.take 12) 0 with
  | .error c => some (.msg ("invalid character in ISBN-13: " ++ String.singleton c))
  | .ok sum =>
    match cs.drop 12 with
    | [] => none
    | c12 :: _ =>
      if '0' ≤ c12 ∧ c12 ≤ '9' then
        if (c12.toNat - 48) ≠ (10 - (sum % 10)) % 10 then
          some (.msg (goQuote s ++ " is not a valid ISBN-13 (checksum failed)"))
        else none
      else some (.msg ("invalid character in ISBN-13: " ++ String.singleton c12))

/-- The `isbn` checker: strip dashes, then dispatch on the remaining
length (10 or 13; anything else is a format failure). The model works
at character rather than byte granularity, which agrees with Go on all
ASCII inputs. -/
def isbnGo (v : Value) : Option VErr :=
  let s := goReplaceAll (sprint v) ("-") ("")
  if s.length = 10 then validateISBN10 s
  else if s.length = 13 then validateISBN13 s
  else some (.msg (goQuote s ++ " is not a valid ISBN (must be 10 or 13 digits)"))

/-- The `creditcard` checker: strip spaces and dashes, require 13 to 19
digits, then delegate to `luhn`. -/
def creditCardGo (v : Value) : Option VErr :=
  let s0 := sprint v
  let s := goReplaceAll (goReplaceAll s0 (" ") ("")) ("-") ("")
  if s.length < 13 ∨ 19 < s.length then
    some (.msg (goQuote s ++ " is not a valid credit card number (wrong length)"))
  else
    match s.data.find? (fun c => !c.isDigit) with
    | some r => some (.msg (goQuote s ++ " contains non-digit character: " ++ goQuoteChar r))
    | none => luhnGo (.vStr s)

/-- The `npi` checker: the `npiRx` pattern (exactly 10 ASCII digits,
implemented directly), then `luhn` on `"80840"` + the number. -/
def npiGo (v : Value) : Option VErr :=
  let s := sprint v
  if s.length = 10 ∧ s.data.all (fun c => '0' ≤ c ∧ c ≤ '9') then
    luhnGo (.vStr ("80840" ++ s))
  else some (.msg (goQuote s ++ " is not a valid NPI"))

/-- The `boolean` checker. -/
def booleanGo (v : Value) : Option VErr :=
  let s := sprint v
  let l := goToLower s
  if l = "1" ∨ l = "t" ∨ l = "true" ∨ l = "yes" ∨ l = "y" ∨ l = "on"
      ∨ l = "0" ∨ l = "f" ∨ l = "false" ∨ l = "no" ∨ l = "n" ∨ l = "off" then none
  else some (.msg (goQuote s ++ " is not a valid boolean value"))

/-- The rune scan shared by `ascii`, `lowercase` and `uppercase`:
first character satisfying `p` together with its byte position. -/
def scanRunes (p : Char → Bool) : List Char → Nat → Option (Char × Nat)
  | [], _ => none
  | c :: rest, i => if p c then some (c, i) else scanRunes p rest (i + c.utf8Size)

/-- The `ascii` checker. -/
def asciiGo (v : Value) : Option VErr :=
  let s := sprint v
  match scanRunes (fun c => c.toNat > 127) s.data 0 with
  | some (c, i) =>
    some (.msg (goQuote s ++ " contains non-ASCII character " ++ goQuoteChar c
      ++ " at position " ++ toString i))
  | none => none

/-- The `lowercase` checker. -/
def lowercaseGo (v : Value) : Option VErr :=
  let s := sprint v
  match scanRunes Char.isUpper s.data 0 with
  | some (c, i) =>
    some (.msg (goQuote s ++ " contains uppercase character " ++ goQuoteChar c
      ++ " at position " ++ toString i))
  | none => none

/-- The `uppercase` checker. -/
def uppercaseGo (v : Value) : Option VErr :=
  let s := sprint v
  match scanRunes Char.isLower s.data 0 with
  | some (c, i) =>
    some (.msg (goQuote s ++ " contains lowercase character " ++ goQuoteChar c
      ++ " at position " ++ toString i))
  | none => none

/-! ## Stdlib-delegating format predicates

The checkers below are present in `src/unnamed/part_004` and are
modelled from it: each formats the value with `fmt.Sprint`, hands the
string to a Go standard-library parser, and wraps a failure in the
repository's own message. The standard-library parsers themselves
(`regexp`, `net/mail`, `net/url`, `net`, `encoding/json`) are outside
this repository; each is abstracted by a constant-verdict function
marked as such, and no claim depends on any of those verdicts. -/

/-- Abstracted outcome of `regexp.Compile` (Go standard library,
outside this repository): pattern compilation always succeeds in the
model. No claim depends on a pattern being rejected. -/
def goRegexCompile (_pat : String) : Except VErr Unit :=
  .ok ()

/-- Abstracted outcome of matching a compiled pattern (the standard
library's regexp engine, outside this repository): the constant verdict
is arbitrary, and no claim depends on a match outcome (regex checkers
are only ever skipped or compared intensionally in the theorems
below). -/
def regexMatch (_pat _s : String) : Bool :=
  false

/-- Abstracted outcome of `mail.ParseAddress` (Go standard library,
outside this repository): whether the string parses as an address. The
constant verdict is arbitrary; no claim depends on it. -/
def goMailParseAddressOk (_s : String) : Bool :=
  false

/-- The `email` checker: delegate to `mail.ParseAddress`; on failure
report the checker's own message. -/
def emailGo (v : Value) : Option VErr :=
  let s := sprint v
  if goMailParseAddressOk s then none
  else some (.msg (goQuote s ++ " is not a valid email address"))

/-- Abstracted outcome of `url.Parse` (Go standard library, outside
this repository): a parse error message, or the URL's scheme and host.
The constant verdict is arbitrary; no claim depends on it. -/
def goURLParse (_s : String) : Except String (String × String) :=
  .ok ((""), (""))

/-- The `url` checker: `url.Parse`, then require a non-empty scheme and
host; both failure messages are the checker's own. -/
def urlGo (v : Value) : Option VErr :=
  let s := sprint v
  match goURLParse s with
  | .error e => some (.msg (goQuote s ++ " is not a valid URL: " ++ e))
  | .ok (scheme, host) =>
    if scheme = "" ∨ host = "" then
      some (.msg (goQuote s ++ " is not a valid URL (missing scheme or host)"))
    else none

/-- Abstracted outcome of `net.ParseIP` (Go standard library, outside
this repository): `none` when the string is not an IP address,
otherwise whether `To4()` is non-nil (an IPv4 address). The constant
verdict is arbitrary; no claim depends on it. -/
def goParseIP (_s : String) : Option Bool :=
  none

/-- The `ip` checker: `net.ParseIP` must succeed. -/
def ipGo (v : Value) : Option VErr :=
  let s := sprint v
  if (goParseIP s).isNone then some (.msg (goQuote s ++ " is not a valid IP address"))
  else none

/-- The `ipv4` checker: `net.ParseIP` must succeed with `To4()`
non-nil. -/
def ipv4Go (v : Value) : Option VErr :=
  let s := sprint v
  match goParseIP s with
  | some true => none
  | _ => some (.msg (goQuote s ++ " is not a valid IPv4 address"))

/-- The `ipv6` checker: `net.ParseIP` must succeed with `To4()`
nil. -/
def ipv6Go (v : Value) : Option VErr :=
  let s := sprint v
  match goParseIP s with
  | some false => none
  | _ => some (.msg (goQuote s ++ " is not a valid IPv6 address"))

/-- Abstracted outcome of `net.ParseMAC` (Go standard library, outside
this repository). The constant verdict is arbitrary; no claim depends
on it. -/
def goParseMACOk (_s : String) : Bool :=
  false

/-- The `mac` checker: `net.ParseMAC` must succeed. -/
def macGo (v : Value) : Option VErr :=
  let s := sprint v
  if goParseMACOk s then none
  else some (.msg (goQuote s ++ " is not a valid MAC address"))

/-- Abstracted outcome of `json.Unmarshal` into `any` (Go standard
library, outside this repository): a syntax error message or success.
The constant verdict is arbitrary; no claim depends on it. -/
def goJSONUnmarshal (_s : String) : Except String Unit :=
  .ok ()

/-- The `json` checker: `json.Unmarshal` must succeed; on failure the
checker's message wraps the unmarshal error. -/
def jsonGo (v : Value) : Option VErr :=
  let s := sprint v
  match goJSONUnmarshal s with
  | .error e => some (.msg (goQuote s ++ " is not valid JSON: " ++ e))
  | .ok _ => none

/-! ## Checkers as data and the checker makers -/

/-- The checkers of the library as first-order data; `runChk`
interprets them, mirroring the Go closures. -/
inductive Chk where
  | required
  | regexC (pat : String)
  | cmpC (exp : ExpO) (arg : String)
  | luhnC
  | isbnC
  | npiC
  | creditCardC
  | booleanC
  | asciiC
  | lowercaseC
  | uppercaseC
  | emailC
  | urlC
  | ipC
  | ipv4C
  | ipv6C
  | macC
  | jsonC
deriving DecidableEq, Repr

/-- Interpretation of a checker, as the corresponding Go closure. -/
def runChk : Chk → Value → Option VErr
  | .required, v => if isZero v then some .required else none
  | .regexC pat, v =>
    let act := sprint v
    if regexMatch pat act then none
    else some (.msg (goQuote act ++ " does not match " ++ pat))
  | .cmpC exp arg, v => runCmp exp arg v
  | .luhnC, v => luhnGo v
  | .isbnC, v => isbnGo v
  | .npiC, v => npiGo v
  | .creditCardC, v => creditCardGo v
  | .booleanC, v => booleanGo v
  | .asciiC, v => asciiGo v
  | .lowercaseC, v => lowercaseGo v
  | .uppercaseC, v => uppercaseGo v
  | .emailC, v => emailGo v
  | .urlC, v => urlGo v
  | .ipC, v => ipGo v
  | .ipv4C, v => ipv4Go v
  | .ipv6C, v => ipv6Go v
  | .macC, v => macGo v
  | .jsonC, v => jsonGo v

/-- The built-in checker makers. -/
inductive Maker where
  | regexM
  | eqM
  | neM
  | minM
  | maxM
  | oneOfM
deriving DecidableEq, Repr

/-- Invoking a maker on its argument. `Regex` fails only if the pattern
does not compile (abstracted); `Eq`/`Ne`/`Min`/`Max` call `sizeCmp`,
which constructs the closure and always returns a nil error; `oneOf`
delegates to `Regex` on `"^(args)$"`. -/
def runMaker : Maker → String → Except VErr Chk
  | .regexM, arg =>
    match goRegexCompile arg with
    | .ok _ => .ok (.regexC arg)
    | .error e => .error e
  | .eqM, arg => .ok (.cmpC .eqO arg)
  | .neM, arg => .ok (.cmpC .notEq arg)
  | .minM, arg => .ok (.cmpC .more arg)
  | .maxM, arg => .ok (.cmpC .less arg)
  | .oneOfM, args =>
    match goRegexCompile ("^(" ++ args ++ ")$") with
    | .ok _ => .ok (.regexC ("^(" ++ args ++ ")$"))
    | .error e => .error e

/-! ## The validator and its default registry -/

/-- Pattern of the `uuid` checker (source literal; `\x7b`/`\x7d` are
the brace characters). -/
def uuidPat : String :=
  "(?i)^[0-9a-f]\x7b8\x7d-?[0-9a-f]\x7b4\x7d-?[0-9a-f]\x7b4\x7d-?[0-9a-f]\x7b4\x7d-?[0-9a-f]\x7b12\x7d$"

/-- Pattern of the `mongoid` checker. -/
def mongoPat : String := "(?i)^[0-9a-f]\x7b24\x7d$"

/-- Pattern of the `hexadecimal` checker. -/
def hexPat : String := "(?i)^[0-9a-f]+$"

/-- Pattern of the `base64` checker. -/
def base64Pat : String :=
  "(?i)^(?:[a-z0-9+/]\x7b4\x7d)*(?:[a-z0-9+/]\x7b2\x7d==|[a-z0-9+/]\x7b3\x7d=)?$"

/-- Pattern of the `domain` checker. -/
def domainPat : String :=
  "(?i)^([a-z0-9]([a-z0-9\\-]\x7b0,61\x7d[a-z0-9])?\\.)+[a-z]\x7b2,\x7d$"

/-- Pattern of the `ssn` checker. -/
def ssnPat : String :=
  "^(0(0[1-9]|[1-9]\\d)|[1-5]\\d\\d|6([0-5]\\d|6[0-5]|6[7-9]|[7-9]\\d)|[7-8]\\d\\d)-(0[1-9]|[1-9]\\d)-(000[1-9]|00[1-9]\\d|0[1-9]\\d\\d|[1-9]\\d\\d\\d)$"

/-- Pattern of the `alpha` checker. -/
def alphaPat : String := "(?i)^[a-z]*$"

/-- Pattern of the `alphanum` checker. -/
def alphaNumPat : String := "(?i)^[a-z0-9]*$"

/-- Pattern of the `numeric` checker. -/
def numericPat : String := "^\\d*$"

/-- The `rgbRange` fragment of the source. -/
def rgbRange : String := "(?:2(?:5[0-5]|[0-4]\\d)|1\\d\\d|[1-9]?\\d)"

/-- Pattern of the `rgb` checker. -/
def rgbPat : String :=
  "^rgb\\((" ++ rgbRange ++ "),(" ++ rgbRange ++ "),(" ++ rgbRange ++ ")\\)$"

/-- Pattern of the `rgba` checker. -/
def rgbaPat : String :=
  "^rgba\\((" ++ rgbRange ++ "),(" ++ rgbRange ++ "),(" ++ rgbRange ++ "),(0|1|0?\\.\\d+)\\)$"

/-- The validation context (`Validator` of the source). The two checker
maps are association lists where registration conses to the front, so
lookup finds the most recent registration — last-write-wins, as for the
Go maps. The `tag` field (struct-tag key) is not modelled: field values
in `Fields` already carry the looked-up tag text. -/
structure Validator where
  checkers : List (String × Chk)
  checkerMakers : List (String × Maker)
  checkSep : String
  checkArgSep : String
  dontSkipZeroChecks : List String
  errorOnPrivate : Bool
deriving DecidableEq, Repr

/-- `RegisterChecker`: overwrite-or-add under `name`. -/
def registerC (v : Validator) (name : String) (c : Chk) : Validator :=
  { v with checkers := (name, c) :: v.checkers }

/-- Checker lookup (`v.checkers[tag]`, nil meaning absent). -/
def lookupC (v : Validator) (name : String) : Option Chk :=
  (v.checkers.find? (fun p => p.1 = name)).map (·.2)

/-- Checker-maker lookup. -/
def lookupM (v : Validator) (name : String) : Option Maker :=
  (v.checkerMakers.find? (fun p => p.1 = name)).map (·.2)

/-- `DefaultDontSkipZero` of the source. -/
def defaultDontSkipZero : List String :=
  [("required"), ("eq"), ("ne"), ("min"), ("max")]

/-- The checkers registered by `New`, in registration order (names are
distinct, so order is irrelevant to lookup). -/
def defaultCheckers : List (String × Chk) :=
  [(("required"), .required),
   (("uuid"), .regexC uuidPat),
   (("email"), .emailC),
   (("url"), .urlC),
   (("ipv4"), .ipv4C),
   (("ipv6"), .ipv6C),
   (("ip"), .ipC),
   (("mac"), .macC),
   (("domain"), .regexC domainPat),
   (("isbn"), .isbnC),
   (("alpha"), .regexC alphaPat),
   (("alphanum"), .regexC alphaNumPat),
   (("numeric"), .regexC numericPat),
   (("boolean"), .booleanC),
   (("creditcard"), .creditCardC),
   (("mongoid"), .regexC mongoPat),
   (("hexadecimal"), .regexC hexPat),
   (("base64"), .regexC base64Pat),
   (("json"), .jsonC),
   (("ascii"), .asciiC),
   (("lowercase"), .lowercaseC),
   (("uppercase"), .uppercaseC),
   (("rgb"), .regexC rgbPat),
   (("rgba"), .regexC rgbaPat),
   (("luhn"), .luhnC),
   (("ssn"), .regexC ssnPat),
   (("npi"), .npiC)]

/-- The checker makers registered by `New`. -/
def defaultMakers : List (String × Maker) :=
  [(("regex"), .regexM),
   (("eq"), .eqM),
   (("ne"), .neM),
   (("min"), .minM),
   (("max"), .maxM),
   (("one_of"), .oneOfM)]

/-- The validator built by `New()`: default separators, the built-in
checkers and makers, the default skip-zero exemptions,
`ErrorOnPrivate = true`. -/
def defaultV : Validator :=
  { checkers := defaultCheckers
    checkerMakers := defaultMakers
    checkSep := (",")
    checkArgSep := (":")
    dontSkipZeroChecks := defaultDontSkipZero
    errorOnPrivate := true }

/-! ## Tag parsing -/

/-- `strings.Contains(name, sep)` for a nonempty separator, via
`goSplit` (which yields more than one part exactly when `sep`
occurs). -/
def goContains (name sep : String) : Bool :=
  (goSplit name sep).length != 1

/-- The display-name normalisation of `validateScalar`: if the name
contains the argument separator, keep only the part before it. -/
def baseName (argSep name : String) : String :=
  match goSplit name argSep with
  | n :: _ :: _ => n
  | _ => name

/-- `Validator.parse` over the already-split segment list, threading
the registry (a successfully made parameterized checker is registered
under the full segment text before the remaining segments are parsed,
exactly as `RegisterChecker` inside the Go loop). Returns the bound
`(Checker, displayName)` pairs in order together with the updated
validator, or the first error. -/
def parseSegs (v : Validator) : List String → Except VErr (List (Chk × String) × Validator)
  | [] => .ok ([], v)
  | seg :: rest =>
    let tag := trimSpace seg
    if tag = "" then parseSegs v rest
    else
      match lookupC v tag with
      | some ck =>
        match parseSegs v rest with
        | .error e => .error e
        | .ok (ps, v') => .ok ((ck, tag) :: ps, v')
      | none =>
        if goContains tag v.checkArgSep then
          match goSplit tag v.checkArgSep with
          | [mk, arg] =>
            if mk = "" ∨ arg = "" then .error (.invalidChecker tag)
            else
              match lookupM v mk with
              | none => .error (.invalidChecker tag)
              | some m =>
                match runMaker m arg with
                | .error e2 => .error (.invalidCheckerWrap tag e2)
                | .ok c =>
                  match parseSegs (registerC v tag c) rest with
                  | .error e => .error e
                  | .ok (ps, v') => .ok ((c, mk) :: ps, v')
          | _ => .error (.invalidChecker tag)
        else .error (.invalidChecker tag)

/-- `Validator.parse` on the raw check-list text: split on the check
separator, then process the segments. -/
def parseGo (v : Validator) (tag : String) : Except VErr (List (Chk × String) × Validator) :=
  parseSegs v (goSplit tag v.checkSep)

/-! ## Scalar check execution and the structural walker -/

/-- The check loop of `validateScalar`: for each bound pair in order,
normalise the display name, skip the check when the value is zero and
the name is not exempted, otherwise run it and wrap a failure as
`name check failed: ...`. -/
def runChecks (v : Validator) (val : Value) : List (Chk × String) → Option VErr
  | [] => none
  | (ck, nm) :: rest =>
    let name := baseName v.checkArgSep nm
    if isZero val && !(v.dontSkipZeroChecks.contains name) then runChecks v val rest
    else
      match runChk ck val with
      | some e => some (.checkFailed name e)
      | none => runChecks v val rest

/-- `Validator.validateScalar`: parse the check-list, run the checks,
and (the deferred function) wrap any error with the dotted scope path
when the scope is nonempty. The registry update from parsing is
dropped: the only entries it adds are cache entries under full
segment texts, whose checker data is identical to what the maker
rebuilds and whose display names normalise to the same base name, so
no later behaviour differs. -/
def validateScalarGo (v : Validator) (val : Value) (tag : String) (scope : List String) :
    Option VErr :=
  let res :=
    match parseGo v tag with
    | .error e => some e
    | .ok (pairs, _) => runChecks v val pairs
  match res with
  | some e => if scope.isEmpty then some e else some (.scoped scope e)
  | none => none

mutual

/-- `Validator.validate`. The Go function first fast-forwards through
pointers, then runs scalar checks when a check-list is present, then —
if the value is a struct — walks the fields. Here the pointer
fast-forward is fused into the recursion (the first two arms) so that
the recursion stays structural; `validateGo_eq_core` below recovers
the literal Go shape, with the fast-forward up front. -/
def validateGo (v : Validator) : Value → String → List String → Option VErr
  | .vPtrTo w, tag, scope => validateGo v w tag scope
  | .vNilPtr, tag, scope =>
    if tag ≠ "" then validateScalarGo v .vInvalid tag scope else none
  | .vStruct fs, tag, scope =>
    match (if tag ≠ "" then validateScalarGo v (.vStruct fs) tag scope else none) with
    | some e => some e
    | none => validateFields v fs scope
  | val, tag, scope =>
    if tag ≠ "" then validateScalarGo v val tag scope else none

/-- The field loop of `Validator.validate`: trim the field's tag;
error or skip on non-exported fields per `ErrorOnPrivate`; dereference
the field value; skip fields with no tag whose dereferenced value is
not a struct; otherwise recurse with the field's name appended to the
scope, stopping at the first error. (Go passes the dereferenced field
value to the recursive call, which fast-forwards again — a no-op; the
model passes the field value itself and lets the recursion
fast-forward, which is the same computation.) -/
def validateFields (v : Validator) : Fields → List String → Option VErr
  | .fnil, _ => none
  | .fcons name exported rawTag fval rest, scope =>
    let tag := trimSpace rawTag
    if !exported then
      if v.errorOnPrivate && tag ≠ "" then some (.privateField (scope ++ [name]))
      else validateFields v rest scope
    else
      if tag = "" && kindOf (derefAll fval) != .kStruct then validateFields v rest scope
      else
        match validateGo v fval tag (scope ++ [name]) with
        | some e => some e
        | none => validateFields v rest scope

end

/-- The body of `Validator.validate` after its pointer fast-forward
loop, in the literal shape of the Go source: scalar checks first when
a check-list is present, then the field walk on structs. -/
def validateCore (v : Validator) (val : Value) (tag : String) (scope : List String) :
    Option VErr :=
  match (if tag ≠ "" then validateScalarGo v val tag scope else none) with
  | some e => some e
  | none =>
    match val with
    | .vStruct fs => validateFields v fs scope
    | _ => none

/-- `Validator.Validate`: join the optional ad-hoc checks with the
check separator and validate the value with an empty scope. -/
def ValidateTop (v : Validator) (val : Value) (tags : List String) : Option VErr :=
  validateGo v val (String.intercalate v.checkSep tags) []

/-! ## Definitions transcribing the claims (for refinement statements)

The definitions in this section are written from the specification's
words, not from the source; the theorems below compare them with the
source-derived functions above. -/

/-- The claim's account of the Luhn digit sum: over the digits
right-to-left (the head of the input list is the rightmost character,
`i` its 0-based position from the right), every second digit starting
with the second-from-rightmost (odd `i`) is doubled, with 9 subtracted
from any doubled value exceeding 9. -/
def specLuhnSumRev : List Char → Nat → Nat
  | [], _ => 0
  | c :: rest, i =>
    (if i % 2 = 1 then
       (if (c.toNat - 48) * 2 > 9 then (c.toNat - 48) * 2 - 9 else (c.toNat - 48) * 2)
     else (c.toNat - 48)) + specLuhnSumRev rest (i + 1)

/-- The claim's account of the ISBN-13 weighted sum over the first 12
digits: weight 1 at even 0-based positions `0,2,4,…` and weight 3 at
odd positions `1,3,5,…` (`i` is the position of the head character). -/
def specIsbn13Sum : List Char → Nat → Nat
  | [], _ => 0
  | c :: rest, i => (if i % 2 = 0 then 1 else 3) * (c.toNat - 48) + specIsbn13Sum rest (i + 1)

/-- The claim's acceptance condition for a 13-character dash-stripped
ISBN: all characters are digits and the 13th digit equals
`(10 − (S mod 10)) mod 10` for `S` the weighted sum of the first 12. -/
def specISBN13Holds (t : String) : Prop :=
  (∀ c ∈ t.data, '0' ≤ c ∧ c ≤ '9') ∧
  match t.data.drop 12 with
  | c :: _ => c.toNat - 48 = (10 - specIsbn13Sum (t.data.take 12) 0 % 10) % 10
  | [] => False

/-- The canonicalized form of a segment list: trim each segment, drop
the empty ones (the claim's \"canonicalized form\" of a check-list). -/
def canonSegs (segs : List String) : List String :=
  (segs.map trimSpace).filter (fun t => t ≠ "")

/-- The claim's Luhn normalization for strings: remove spaces and
dashes. -/
def specLuhnNormalize (s : String) : String :=
  goReplaceAll (goReplaceAll s (" ") ("")) ("-") ("")

/-- Concatenation of field lists (to talk about a field's position in
declaration order). -/
def fappend : Fields → Fields → Fields
  | .fnil, gs => gs
  | .fcons name e t val rest, gs => .fcons name e t val (fappend rest gs)

/-- `n`-fold (non-nil) pointer wrapping of a value. -/
def ptrN : Nat → Value → Value
  | 0, x => x
  | n + 1, x => .vPtrTo (ptrN n x)

/-- The display names of the comparison checks (the skip-zero
exemptions other than `required`). -/
def cmpNames : List String :=
  [("eq"), ("ne"), ("min"), ("max")]

/-- A check-list whose parse (from validator `v`) binds no comparison
check: every bound display name has a base outside eq/ne/min/max.
Vacuously true when the check-list fails to parse. -/
def noCmpChecks (v : Validator) (tag : String) : Prop :=
  match parseGo v tag with
  | .ok (pairs, _) => ∀ p ∈ pairs, baseName v.checkArgSep p.2 ∉ cmpNames
  | .error _ => True

/-- Registry shape preserved by parsing from the default validator:
the argument separator is `":"`, the maker registry is the built-in
one, and every registered checker whose name has base `required` is the
`required` checker. -/
def reqInv (v : Validator) : Prop :=
  v.checkArgSep = (":")
  ∧ v.checkerMakers = defaultMakers
  ∧ v.dontSkipZeroChecks = defaultDontSkipZero
  ∧ (∀ p ∈ v.checkers, baseName (":") p.1 = ("required") → p.2 = Chk.required)

/-! ## Theorems -/

/-- On a value that is not a struct, the body of `validate` reduces to
the scalar checks alone. -/
theorem validateCore_scalar (v : Validator) (val : Value) (tag : String) (scope : List String)
    (h : kindOf val ≠ .kStruct) :
    validateCore v val tag scope = if tag ≠ "" then validateScalarGo v val tag scope else none := by
  unfold validateCore
  cases hx : (if tag ≠ "" then validateScalarGo v val tag scope else none) with
  | none => cases val <;> simp_all [kindOf]
  | some e => simp

/-- `validateGo` is the fast-forward loop followed by the literal body
of the Go function. -/
theorem validateGo_eq_core (v : Validator) :
    ∀ (val : Value) (tag : String) (scope : List String),
      validateGo v val tag scope = validateCore v (derefAll val) tag scope
  | .vPtrTo w, tag, scope => by
    have h : validateGo v (.vPtrTo w) tag scope = validateGo v w tag scope := rfl
    rw [h, validateGo_eq_core v w tag scope]
    rfl
  | .vNilPtr, tag, scope => by
    have h : validateGo v .vNilPtr tag scope
        = (if tag ≠ "" then validateScalarGo v .vInvalid tag scope else none) := rfl
    rw [h, show derefAll .vNilPtr = .vInvalid from rfl,
      validateCore_scalar v .vInvalid tag scope (by simp [kindOf])]
  | .vStruct fs, tag, scope => by
    have h : validateGo v (.vStruct fs) tag scope
        = (match (if tag ≠ "" then validateScalarGo v (.vStruct fs) tag scope else none) with
           | some e => some e
           | none => validateFields v fs scope) := rfl
    rw [h]
    rfl
  | .vInvalid, tag, scope => by
    have h : validateGo v .vInvalid tag scope
        = (if tag ≠ "" then validateScalarGo v .vInvalid tag scope else none) := rfl
    rw [h, show derefAll .vInvalid = .vInvalid from rfl,
      validateCore_scalar v .vInvalid tag scope (by simp [kindOf])]
  | .vStr s, tag, scope => by
    have h : validateGo v (.vStr s) tag scope
        = (if tag ≠ "" then validateScalarGo v (.vStr s) tag scope else none) := rfl
    rw [h, show derefAll (.vStr s) = .vStr s from rfl,
      validateCore_scalar v (.vStr s) tag scope (by simp [kindOf])]
  | .vInt n, tag, scope => by
    have h : validateGo v (.vInt n) tag scope
        = (if tag ≠ "" then validateScalarGo v (.vInt n) tag scope else none) := rfl
    rw [h, show derefAll (.vInt n) = .vInt n from rfl,
      validateCore_scalar v (.vInt n) tag scope (by simp [kindOf])]
  | .vUint n, tag, scope => by
    have h : validateGo v (.vUint n) tag scope
        = (if tag ≠ "" then validateScalarGo v (.vUint n) tag scope else none) := rfl
    rw [h, show derefAll (.vUint n) = .vUint n from rfl,
      validateCore_scalar v (.vUint n) tag scope (by simp [kindOf])]
  | .vFloat f, tag, scope => by
    have h : validateGo v (.vFloat f) tag scope
        = (if tag ≠ "" then validateScalarGo v (.vFloat f) tag scope else none) := rfl
    rw [h, show derefAll (.vFloat f) = .vFloat f from rfl,
      validateCore_scalar v (.vFloat f) tag scope (by simp [kindOf])]

/-- The doubling flag for position `i + 1` from the right is the
negation of the flag for position `i`. -/
theorem parity_flip (i : Nat) : (!decide (i % 2 = 1)) = decide ((i + 1) % 2 = 1) := by
  by_cases h : i % 2 = 1
  · have h2 : ¬(i + 1) % 2 = 1 := by omega
    simp [h, h2]
  · have h2 : (i + 1) % 2 = 1 := by omega
    simp [h, h2]

/-- On all-digit input, the Luhn loop computes the claim's
right-to-left doubling sum. -/
theorem luhnSum_ok : ∀ (cs : List Char) (i : Nat),
    (∀ c ∈ cs, '0' ≤ c ∧ c ≤ '9') →
    luhnSum cs (decide (i % 2 = 1)) = .ok (specLuhnSumRev cs i)
  | [], _, _ => rfl
  | c :: rest, i, h => by
    have hc := h c (by simp)
    have ih := luhnSum_ok rest (i + 1) (fun x hx => h x (by simp [hx]))
    rw [luhnSum, if_pos hc, parity_flip i, ih]
    by_cases hp : i % 2 = 1
    · simp [specLuhnSumRev, hp, Nat.add_comm]
    · simp [specLuhnSumRev, hp, Nat.add_comm]

/-- On input with a non-digit, the Luhn loop fails. -/
theorem luhnSum_error : ∀ (cs : List Char) (dbl : Bool),
    ¬(∀ c ∈ cs, '0' ≤ c ∧ c ≤ '9') → ∃ e, luhnSum cs dbl = .error e
  | [], _, h => absurd (by simp) h
  | c :: rest, dbl, h => by
    by_cases hc : '0' ≤ c ∧ c ≤ '9'
    · have hrest : ¬∀ x ∈ rest, '0' ≤ x ∧ x ≤ '9' := by
        intro hall
        refine h ?_
        intro x hx
        rcases List.mem_cons.mp hx with rfl | hx2
        · exact hc
        · exact hall x hx2
      obtain ⟨e, he⟩ := luhnSum_error rest (!dbl) hrest
      exact ⟨e, by rw [luhnSum, if_pos hc, he]⟩
    · exact ⟨c, by rw [luhnSum, if_neg hc]⟩

/-- Replacing `"."` by `""` removes every dot: the scan consumes at
least one character per fuel step, so with fuel at least the input
length no dot survives. -/
theorem goReplaceAux_dot : ∀ (fuel : Nat) (l : List Char), l.length ≤ fuel →
    ('.') ∉ goReplaceAux [('.')] [] fuel l
  | _, [], _ => by
    intro hmem
    simp [goReplaceAux] at hmem
  | 0, c :: cs, h => by
    simp at h
  | fuel + 1, c :: cs, h => by
    rw [goReplaceAux]
    by_cases hc : startsWithL [('.')] (c :: cs) = true
    · rw [if_pos hc]
      simp only [List.nil_append]
      have hdrop : List.drop (List.length [('.')] - 1) cs = cs := by simp
      rw [hdrop]
      exact goReplaceAux_dot fuel cs (by simp at h; omega)
    · rw [if_neg hc]
      have hcc : c ≠ '.' := by
        intro heq
        exact hc (by simp [startsWithL, heq])
      intro hmem
      rcases List.mem_cons.mp hmem with heq | hmem2
      · exact hcc heq.symm
      · exact goReplaceAux_dot fuel cs (by simp at h; omega) hmem2

/-- `strings.ReplaceAll(s, ".", "")` yields a string with no decimal
point. -/
theorem goReplaceAll_dot (s : String) : ('.') ∉ (goReplaceAll s (".") ("")).data :=
  goReplaceAux_dot s.data.length s.data (le_refl _)

/-- C5: the `luhn` checker on a string value normalizes by removing
spaces and dashes, fails on an empty or non-digit normalized string,
and otherwise succeeds exactly when the right-to-left doubling sum is a
multiple of 10. Integer values are formatted in decimal and float
values with `%.0f` (plain decimal, never scientific notation) followed
by decimal-point removal — so the normalized float string provably
contains no decimal point — and both then run through the same string
path, so the same characterisation holds for them; `"4111111111111111"`
is accepted and `"4111111111111112"` rejected. -/
theorem luhn_characterisation :
    (∀ s : String,
      luhnGo (.vStr s) = none ↔
        (specLuhnNormalize s ≠ "" ∧
         (∀ c ∈ (specLuhnNormalize s).data, '0' ≤ c ∧ c ≤ '9') ∧
         specLuhnSumRev (specLuhnNormalize s).data.reverse 0 % 10 = 0))
    ∧ (∀ n : Int, luhnGo (.vInt n) = luhnStr (toString n))
    ∧ (∀ n : Nat, luhnGo (.vUint n) = luhnStr (toString n))
    ∧ (∀ f : Float, luhnGo (.vFloat f) = luhnStr (goReplaceAll (goFmtF0 f) (".") ("")))
    ∧ (∀ f : Float, ('.') ∉ (goReplaceAll (goFmtF0 f) (".") ("")).data)
    ∧ (∀ f : Float,
      luhnGo (.vFloat f) = none ↔
        (specLuhnNormalize (goReplaceAll (goFmtF0 f) (".") ("")) ≠ "" ∧
         (∀ c ∈ (specLuhnNormalize (goReplaceAll (goFmtF0 f) (".") (""))).data,
           '0' ≤ c ∧ c ≤ '9') ∧
         specLuhnSumRev
           (specLuhnNormalize (goReplaceAll (goFmtF0 f) (".") (""))).data.reverse 0
           % 10 = 0))
    ∧ luhnGo (.vStr ("4111111111111111")) = none
    ∧ luhnGo (.vStr ("4111111111111112")) =
        some (.msg ("\"4111111111111112\" is not valid according to the Luhn algorithm")) := by
  have hstr : ∀ s : String,
      luhnStr s = none ↔
        (specLuhnNormalize s ≠ "" ∧
         (∀ c ∈ (specLuhnNormalize s).data, '0' ≤ c ∧ c ≤ '9') ∧
         specLuhnSumRev (specLuhnNormalize s).data.reverse 0 % 10 = 0) := by
    intro s
    rw [luhnStr, specLuhnNormalize]
    set t := goReplaceAll (goReplaceAll s (" ") ("")) ("-") ("") with ht
    by_cases h0 : t = ""
    · simp [h0]
    · rw [if_neg h0]
      by_cases hd : ∀ c ∈ t.data, '0' ≤ c ∧ c ≤ '9'
      · have hrev : ∀ c ∈ t.data.reverse, '0' ≤ c ∧ c ≤ '9' := fun c hc =>
          hd c (List.mem_reverse.mp hc)
        have hok := luhnSum_ok t.data.reverse 0 hrev
        rw [show (decide (0 % 2 = 1)) = false from rfl] at hok
        rw [hok]
        by_cases hs : specLuhnSumRev t.data.reverse 0 % 10 = 0
        · simp only [hs]
          simp [h0, hs]
          exact hd
        · simp [h0, hd, hs]
      · obtain ⟨e, he⟩ := luhnSum_error t.data.reverse false (fun hall =>
          hd (fun c hc => hall c (List.mem_reverse.mpr hc)))
        rw [he]
        simp [h0, hd]
  exact ⟨fun s => hstr s, fun n => rfl, fun n => rfl, fun f => rfl,
    fun f => goReplaceAll_dot (goFmtF0 f),
    fun f => hstr (goReplaceAll (goFmtF0 f) (".") ("")),
    by decide, by decide⟩

/-- On all-digit input, the ISBN-13 loop computes the claim's weighted
sum. -/
theorem isbn13Sum_ok : ∀ (cs : List Char) (i : Nat),
    (∀ c ∈ cs, '0' ≤ c ∧ c ≤ '9') → isbn13Sum cs i = .ok (specIsbn13Sum cs i)
  | [], _, _ => rfl
  | c :: rest, i, h => by
    have hc := h c (by simp)
    have ih := isbn13Sum_ok rest (i + 1) (fun x hx => h x (by simp [hx]))
    rw [isbn13Sum, if_pos hc, ih, specIsbn13Sum]
    exact congrArg Except.ok (Nat.add_comm _ _)

/-- On input with a non-digit among the inspected characters, the
ISBN-13 loop fails. -/
theorem isbn13Sum_error : ∀ (cs : List Char) (i : Nat),
    ¬(∀ c ∈ cs, '0' ≤ c ∧ c ≤ '9') → ∃ e, isbn13Sum cs i = .error e
  | [], _, h => absurd (by simp) h
  | c :: rest, i, h => by
    by_cases hc : '0' ≤ c ∧ c ≤ '9'
    · have hrest : ¬∀ x ∈ rest, '0' ≤ x ∧ x ≤ '9' := by
        intro hall
        refine h ?_
        intro x hx
        rcases List.mem_cons.mp hx with rfl | hx2
        · exact hc
        · exact hall x hx2
      obtain ⟨e, he⟩ := isbn13Sum_error rest (i + 1) hrest
      exact ⟨e, by rw [isbn13Sum, if_pos hc, he]⟩
    · exact ⟨c, by rw [isbn13Sum, if_neg hc]⟩

/-- C6: on any input whose dash-stripped form has exactly 13
characters, the `isbn` checker succeeds exactly when all 13 are digits
and the 13th equals `(10 − (S mod 10)) mod 10` for `S` the 1/3-weighted
sum of the first 12; `"9783161484100"` is accepted and
`"9783161484101"` rejected. -/
theorem isbn13_characterisation :
    (∀ s : String, (goReplaceAll s ("-") ("")).length = 13 →
      (isbnGo (.vStr s) = none ↔ specISBN13Holds (goReplaceAll s ("-") (""))))
    ∧ isbnGo (.vStr ("9783161484100")) = none
    ∧ isbnGo (.vStr ("9783161484101")) =
        some (.msg ("\"9783161484101\" is not a valid ISBN-13 (checksum failed)")) := by
  refine ⟨fun s hlen => ?_, by decide, by decide⟩
  have hne10 : ¬(goReplaceAll s ("-") ("")).length = 10 := by omega
  have hgo : isbnGo (.vStr s) = validateISBN13 (goReplaceAll s ("-") ("")) := by
    show (if (goReplaceAll s ("-") ("")).length = 10 then
            validateISBN10 (goReplaceAll s ("-") (""))
          else if (goReplaceAll s ("-") ("")).length = 13 then
            validateISBN13 (goReplaceAll s ("-") (""))
          else some (.msg (goQuote (goReplaceAll s ("-") (""))
            ++ " is not a valid ISBN (must be 10 or 13 digits)"))) = _
    rw [if_neg hne10, if_pos hlen]
  rw [hgo]
  set t := goReplaceAll s ("-") ("") with htdef
  have hdata : t.data.length = 13 := hlen
  rw [validateISBN13]
  by_cases h12 : ∀ c ∈ t.data.take 12, '0' ≤ c ∧ c ≤ '9'
  · rw [isbn13Sum_ok _ 0 h12]
    have hdrop : (t.data.drop 12).length = 1 := by
      rw [List.length_drop, hdata]
    obtain ⟨c12, hc12⟩ := List.length_eq_one.mp hdrop
    have hsplit : t.data.take 12 ++ [c12] = t.data := by
      rw [← hc12]
      exact List.take_append_drop 12 t.data
    rw [hc12]
    show (if '0' ≤ c12 ∧ c12 ≤ '9' then
            if c12.toNat - 48 ≠ (10 - specIsbn13Sum (t.data.take 12) 0 % 10) % 10 then
              some (VErr.msg (goQuote t ++ " is not a valid ISBN-13 (checksum failed)"))
            else none
          else some (VErr.msg ("invalid character in ISBN-13: " ++ String.singleton c12))) = none
        ↔ specISBN13Holds t
    by_cases hdig : '0' ≤ c12 ∧ c12 ≤ '9'
    · rw [if_pos hdig]
      have halldig : (∀ c ∈ t.data, '0' ≤ c ∧ c ≤ '9') ↔ True := by
        simp only [iff_true]
        intro c hc
        rw [← hsplit] at hc
        rcases List.mem_append.mp hc with hc | hc
        · exact h12 c hc
        · rw [List.mem_singleton.mp hc]
          exact hdig
      by_cases heq : c12.toNat - 48 = (10 - specIsbn13Sum (t.data.take 12) 0 % 10) % 10
      · rw [if_neg (by simpa using heq)]
        simp only [specISBN13Holds, hc12, true_iff]
        exact ⟨halldig.mpr trivial, heq⟩
      · rw [if_pos (by simpa using heq)]
        simp [specISBN13Holds, hc12, heq]
    · rw [if_neg hdig]
      have hmem : c12 ∈ t.data := by
        rw [← hsplit]
        exact List.mem_append.mpr (Or.inr (List.mem_singleton.mpr rfl))
      simp only [specISBN13Holds]
      constructor
      · intro hcontra
        cases hcontra
      · intro ⟨hall, _⟩
        exact absurd (hall c12 hmem) hdig
  · obtain ⟨e, he⟩ := isbn13Sum_error _ 0 h12
    rw [he]
    have : ¬∀ c ∈ t.data, '0' ≤ c ∧ c ≤ '9' := by
      intro hall
      exact h12 (fun c hc => hall c (List.mem_of_mem_take hc))
    simp only [specISBN13Holds]
    constructor
    · intro hcontra
      cases hcontra
    · intro ⟨hall, _⟩
      exact absurd hall this

/-- A right-trimmed, left-`dropWhile`-stable list is still
left-`dropWhile`-stable: `rdropWhile` only shortens from the right, so
the head (which does not satisfy `p`) survives. -/
theorem dropWhile_rdropWhile (p : Char → Bool) (l : List Char) :
    List.dropWhile p (List.rdropWhile p (List.dropWhile p l))
      = List.rdropWhile p (List.dropWhile p l) := by
  rw [List.dropWhile_eq_self_iff]
  intro hl
  have hpre := List.rdropWhile_prefix p (List.dropWhile p l)
  have hlen : 0 < (List.dropWhile p l).length := lt_of_lt_of_le hl hpre.length_le
  have hget := List.IsPrefix.getElem hpre (show 0 < _ from hl)
  have hnot := List.dropWhile_get_zero_not p l hlen
  simp only [List.get_eq_getElem] at hnot ⊢
  rw [hget]
  exact hnot

/-- `strings.TrimSpace` is idempotent. -/
theorem trimSpace_idem (s : String) : trimSpace (trimSpace s) = trimSpace s := by
  have hdata : (trimSpace s).data = List.rdropWhile goIsSpace (s.data.dropWhile goIsSpace) := rfl
  show String.mk (List.rdropWhile goIsSpace ((trimSpace s).data.dropWhile goIsSpace))
      = trimSpace s
  rw [hdata, dropWhile_rdropWhile, List.rdropWhile_idempotent]
  rfl

/-- C9: parsing is insensitive to empty segments and surrounding white
space — any segment list parses exactly (same bound checkers, same
display names, same registrations, same errors) like its canonicalized
form, and in particular the spec's example check-list
`" required,,,  uuid  "` parses identically to `"required,uuid"`. -/
theorem parse_canonicalisation :
    (∀ (v : Validator) (segs : List String), parseSegs v segs = parseSegs v (canonSegs segs))
    ∧ parseGo defaultV (" required,,,  uuid  ") = parseGo defaultV ("required,uuid") := by
  refine ⟨?_, rfl⟩
  intro v segs
  induction segs generalizing v with
  | nil => rfl
  | cons seg rest ih =>
    by_cases h0 : trimSpace seg = ""
    · have hcanon : canonSegs (seg :: rest) = canonSegs rest := by
        simp [canonSegs, List.filter_cons, h0]
      rw [hcanon]
      simp only [parseSegs, if_pos h0]
      exact ih v
    · have hcanon : canonSegs (seg :: rest) = trimSpace seg :: canonSegs rest := by
        simp [canonSegs, List.filter_cons, h0]
      rw [hcanon]
      simp only [parseSegs, trimSpace_idem, if_neg h0]
      simp only [ih]

/-- C4: a non-empty trimmed segment that matches no registered checker
name and is malformed as a maker invocation (zero or more than one
argument-separator occurrence, an empty name or argument, or an
unregistered maker name) makes parsing fail with an InvalidChecker
error naming exactly that (trimmed) segment, whatever follows. -/
theorem parse_invalid_segment (v : Validator) (seg : String) (rest : List String)
    (hne : trimSpace seg ≠ "")
    (hck : lookupC v (trimSpace seg) = none)
    (hbad : match goSplit (trimSpace seg) v.checkArgSep with
            | [mk, arg] => mk = "" ∨ arg = "" ∨ lookupM v mk = none
            | _ => True) :
    parseSegs v (seg :: rest) = .error (.invalidChecker (trimSpace seg)) := by
  simp only [parseSegs, if_neg hne, hck]
  cases hsp : goSplit (trimSpace seg) v.checkArgSep with
  | nil => simp [goContains, hsp]
  | cons a tl =>
    cases tl with
    | nil => simp [goContains, hsp]
    | cons b tl2 =>
      cases tl2 with
      | nil =>
        simp only [hsp] at hbad
        by_cases hemp : a = "" ∨ b = ""
        · simp [goContains, hsp, hemp]
        · have hm : lookupM v a = none := by
            rcases hbad with h | h | h
            · exact absurd (Or.inl h) hemp
            · exact absurd (Or.inr h) hemp
            · exact h
          simp [goContains, hsp, hemp, hm]
      | cons c tl3 => simp [goContains, hsp]

/-- Witness for C4 at the concrete malformed segments of the spec's
test list. -/
theorem parse_invalid_segment_witness :
    (trimSpace ("foo:bar:baz") ≠ "" ∧ lookupC defaultV ("foo:bar:baz") = none
      ∧ parseSegs defaultV [("foo:bar:baz")] = .error (.invalidChecker ("foo:bar:baz")))
    ∧ parseSegs defaultV [("foo:")] = .error (.invalidChecker ("foo:"))
    ∧ parseSegs defaultV [(":foo")] = .error (.invalidChecker (":foo"))
    ∧ parseSegs defaultV [("foo:bar")] = .error (.invalidChecker ("foo:bar"))
    ∧ parseSegs defaultV [("bogus")] = .error (.invalidChecker ("bogus")) := by
  refine ⟨⟨by decide, by decide, ?_⟩, ?_, ?_, ?_, ?_⟩
  · have h := parse_invalid_segment defaultV ("foo:bar:baz") [] (by decide) (by decide)
      (by exact trivial)
    simpa using h
  · have h := parse_invalid_segment defaultV ("foo:") [] (by decide) (by decide)
      (by right; left; rfl)
    simpa using h
  · have h := parse_invalid_segment defaultV (":foo") [] (by decide) (by decide)
      (by left; rfl)
    simpa using h
  · have h := parse_invalid_segment defaultV ("foo:bar") [] (by decide) (by decide)
      (by right; right; rfl)
    simpa using h
  · have h := parse_invalid_segment defaultV ("bogus") [] (by decide) (by decide)
      (by exact trivial)
    simpa using h

/-- C10: the eq/ne/min/max makers perform no parsing at construction
and never fail — each returns its comparison checker for any argument
string; in particular the tag `"min:foo"` parses successfully (binding
the checker under the full segment text), and the unparsable argument
only surfaces at validation time, as a CheckFailed error wrapping the
`strconv` error, when the check runs on a non-skipped value. -/
theorem cmp_makers_never_fail :
    (∀ arg : String,
      runMaker .eqM arg = .ok (.cmpC .eqO arg)
      ∧ runMaker .neM arg = .ok (.cmpC .notEq arg)
      ∧ runMaker .minM arg = .ok (.cmpC .more arg)
      ∧ runMaker .maxM arg = .ok (.cmpC .less arg))
    ∧ parseGo defaultV ("min:foo")
        = .ok ([(.cmpC .more ("foo"), ("min"))],
            registerC defaultV ("min:foo") (.cmpC .more ("foo")))
    ∧ validateScalarGo defaultV (.vInt 5) ("min:foo") []
        = some (.checkFailed ("min")
            (.msg ("strconv.ParseInt: parsing " ++ goQuote ("foo") ++ ": invalid syntax"))) :=
  ⟨fun _ => ⟨rfl, rfl, rfl, rfl⟩, rfl, by decide⟩

/-- C2: by default the skip-zero exemption set is exactly
required/eq/ne/min/max; on a zero value the check loop behaves exactly
as if the non-exempt checks were absent (they are skipped), while the
exempt checks run — in particular `required` runs on a zero value and
fails with the missing-value error. -/
theorem zero_skip_policy :
    defaultDontSkipZero = [("required"), ("eq"), ("ne"), ("min"), ("max")]
    ∧ (∀ (val : Value) (pairs : List (Chk × String)), isZero val = true →
        runChecks defaultV val pairs
          = runChecks defaultV val
              (pairs.filter (fun p =>
                defaultV.dontSkipZeroChecks.contains (baseName defaultV.checkArgSep p.2))))
    ∧ (∀ val : Value, isZero val = true →
        runChecks defaultV val [(.required, ("required"))]
          = some (.checkFailed ("required") .required)) := by
  refine ⟨rfl, fun val pairs hz => ?_, fun val hz => ?_⟩
  · induction pairs with
    | nil => rfl
    | cons p rest ih =>
      obtain ⟨ck, nm⟩ := p
      by_cases hmem :
          defaultV.dontSkipZeroChecks.contains (baseName defaultV.checkArgSep nm) = true
      · rw [List.filter_cons]
        simp only [hmem, if_true]
        rw [runChecks, runChecks]
        simp only [hz, hmem, Bool.not_true, Bool.and_false]
        cases hr : runChk ck val with
        | some e => simp [hr]
        | none => simpa [hr] using ih
      · have hm : defaultV.dontSkipZeroChecks.contains (baseName defaultV.checkArgSep nm)
            = false := by
          revert hmem
          cases defaultV.dontSkipZeroChecks.contains (baseName defaultV.checkArgSep nm) <;> simp
        rw [List.filter_cons]
        simp only [hm, Bool.false_eq_true, if_false]
        rw [runChecks]
        simp only [hz, hm, Bool.not_false, Bool.and_true, if_true]
        exact ih
  · have hbase : baseName defaultV.checkArgSep ("required") = ("required") := rfl
    have hcont : defaultV.dontSkipZeroChecks.contains ("required") = true := rfl
    have hckr : runChk .required val = some .required := by
      rw [runChk]
      simp [hz]
    rw [runChecks]
    simp [hbase, hcont, hckr]
    intro _ hnotin
    exact absurd (by decide) hnotin

/-- Witness for C2 at a zero string with a non-exempt (`uuid`) and an
exempt (`required`) check. -/
theorem zero_skip_policy_witness :
    isZero (.vStr ("")) = true
    ∧ runChecks defaultV (.vStr ("")) [(.regexC uuidPat, ("uuid")), (.required, ("required"))]
        = runChecks defaultV (.vStr (""))
            ([(.regexC uuidPat, ("uuid")), (.required, ("required"))].filter (fun p =>
              defaultV.dontSkipZeroChecks.contains (baseName defaultV.checkArgSep p.2)))
    ∧ runChecks defaultV (.vStr ("")) [(.required, ("required"))]
        = some (.checkFailed ("required") .required) :=
  ⟨rfl, zero_skip_policy.2.1 (.vStr ("")) _ rfl, zero_skip_policy.2.2 (.vStr ("")) rfl⟩

/-- C7: reference transparency — validating an `n`-fold pointer to a
value behaves identically to validating the value itself, for success
and failure alike, with the exact same error message. -/
theorem reference_transparency :
    (∀ (n : Nat) (v : Validator) (x : Value) (tag : String) (scope : List String),
      validateGo v (ptrN n x) tag scope = validateGo v x tag scope)
    ∧ (∀ (n : Nat) (v : Validator) (x : Value) (tag : String) (scope : List String),
      (validateGo v (ptrN n x) tag scope).map VErr.render
        = (validateGo v x tag scope).map VErr.render) := by
  have h : ∀ (n : Nat) (v : Validator) (x : Value) (tag : String) (scope : List String),
      validateGo v (ptrN n x) tag scope = validateGo v x tag scope := by
    intro n
    induction n with
    | zero => intro v x tag scope; rfl
    | succ k ih =>
      intro v x tag scope
      have hstep : validateGo v (ptrN (k + 1) x) tag scope
          = validateGo v (ptrN k x) tag scope := rfl
      rw [hstep, ih]
  exact ⟨h, fun n v x tag scope => congrArg (Option.map VErr.render) (h n v x tag scope)⟩

/-- Witness for C6's length-13 characterisation at the spec's accepted
ISBN-13. -/
theorem isbn13_characterisation_witness :
    (goReplaceAll ("9783161484100") ("-") ("")).length = 13
    ∧ (isbnGo (.vStr ("9783161484100")) = none
        ↔ specISBN13Holds (goReplaceAll ("9783161484100") ("-") (""))) :=
  ⟨by decide, isbn13_characterisation.1 ("9783161484100") (by decide)⟩

/-- The field walk over a concatenation: process the first list; only
if every field of it passes, continue with the second. (Field
processing carries no state from field to field, so the walk is a
find-first-error over the fields in declaration order.) -/
theorem validateFields_append (v : Validator) :
    ∀ (fs gs : Fields) (scope : List String),
      validateFields v (fappend fs gs) scope
        = (match validateFields v fs scope with
           | some e => some e
           | none => validateFields v gs scope)
  | .fnil, gs, scope => rfl
  | .fcons name exported rawTag fval rest, gs, scope => by
    rw [fappend, validateFields, validateFields]
    by_cases hexp : exported = true
    · subst hexp
      simp only [Bool.not_true, Bool.false_eq_true, if_false]
      by_cases hskip : (trimSpace rawTag = "" && kindOf (derefAll fval) != Kind.kStruct) = true
      · simp only [hskip, if_true]
        exact validateFields_append v rest gs scope
      · simp only [hskip, if_false]
        cases validateGo v fval (trimSpace rawTag) (scope ++ [name]) with
        | some e => rfl
        | none => exact validateFields_append v rest gs scope
    · have hexp2 : exported = false := by revert hexp; cases exported <;> simp
      subst hexp2
      simp only [Bool.not_false, if_true]
      by_cases herr : (v.errorOnPrivate && trimSpace rawTag ≠ "") = true
      · simp only [herr, if_true]
      · simp only [herr, if_false]
        exact validateFields_append v rest gs scope

/-- C8 (error policy): with `ErrorOnPrivate` set, a non-exported field
carrying a non-empty check-list makes validation of the struct fail
with a PrivateFieldError scoped to that field's dotted path, as soon as
the walk reaches it — every earlier field must have passed, and the
fields declared after it (and the private field's own value) play no
part. -/
theorem private_field_error (pre : Fields) (name rawTag : String) (fval : Value)
    (rest : Fields) (scope : List String)
    (htag : trimSpace rawTag ≠ "")
    (hpre : validateFields defaultV pre scope = none) :
    validateGo defaultV (.vStruct (fappend pre (.fcons name false rawTag fval rest))) ("") scope
      = some (.privateField (scope ++ [name])) := by
  have hgo : validateGo defaultV
      (.vStruct (fappend pre (.fcons name false rawTag fval rest))) ("") scope
      = validateFields defaultV (fappend pre (.fcons name false rawTag fval rest)) scope := rfl
  rw [hgo, validateFields_append, hpre, validateFields]
  simp only [Bool.not_false, if_true]
  have hcond : (defaultV.errorOnPrivate && trimSpace rawTag ≠ "") = true := by
    simp [defaultV, htag]
  simp only [hcond, if_true]

/-- C8 (ignore policy): with `ErrorOnPrivate` cleared, a non-exported
field is skipped entirely — validation of the struct equals validation
of the struct with that field removed, whatever its tag and value (in
particular no recursion into a composite private field ever happens). -/
theorem private_field_ignore (v : Validator) (hv : v.errorOnPrivate = false)
    (pre : Fields) (name rawTag : String) (fval : Value) (rest : Fields)
    (scope : List String) :
    validateGo v (.vStruct (fappend pre (.fcons name false rawTag fval rest))) ("") scope
      = validateGo v (.vStruct (fappend pre rest)) ("") scope := by
  have hgo1 : validateGo v
      (.vStruct (fappend pre (.fcons name false rawTag fval rest))) ("") scope
      = validateFields v (fappend pre (.fcons name false rawTag fval rest)) scope := rfl
  have hgo2 : validateGo v (.vStruct (fappend pre rest)) ("") scope
      = validateFields v (fappend pre rest) scope := rfl
  rw [hgo1, hgo2, validateFields_append, validateFields_append]
  cases validateFields v pre scope with
  | some e => rfl
  | none =>
    simp only []
    rw [validateFields]
    simp [hv]

/-- C8 joint statement: both halves of the private-field policy. -/
theorem private_field_policy :
    (∀ (pre : Fields) (name rawTag : String) (fval : Value) (rest : Fields)
       (scope : List String),
      trimSpace rawTag ≠ "" →
      validateFields defaultV pre scope = none →
      validateGo defaultV (.vStruct (fappend pre (.fcons name false rawTag fval rest)))
          ("") scope
        = some (.privateField (scope ++ [name])))
    ∧ (∀ (v : Validator), v.errorOnPrivate = false →
       ∀ (pre : Fields) (name rawTag : String) (fval : Value) (rest : Fields)
         (scope : List String),
        validateGo v (.vStruct (fappend pre (.fcons name false rawTag fval rest))) ("") scope
          = validateGo v (.vStruct (fappend pre rest)) ("") scope) :=
  ⟨fun pre name rawTag fval rest scope htag hpre =>
      private_field_error pre name rawTag fval rest scope htag hpre,
    fun v hv pre name rawTag fval rest scope =>
      private_field_ignore v hv pre name rawTag fval rest scope⟩

/-- Witness for C8: a passing public field, then a tagged private field
holding a failing composite value, then a failing public field; with
the default policy the result is the PrivateFieldError for the private
field, and with the ignore policy the private subtree vanishes from the
result. -/
theorem private_field_policy_witness :
    (trimSpace ("required") ≠ ""
      ∧ validateFields defaultV (.fcons ("A") true ("") (.vStr ("x")) .fnil) [] = none
      ∧ validateGo defaultV
          (.vStruct (fappend (.fcons ("A") true ("") (.vStr ("x")) .fnil)
            (.fcons ("b") false ("required")
              (.vStruct (.fcons ("C") true ("required") (.vStr ("")) .fnil))
              (.fcons ("D") true ("required") (.vStr ("")) .fnil)))) ("") []
        = some (.privateField [("b")]))
    ∧ ({ defaultV with errorOnPrivate := false } : Validator).errorOnPrivate = false
    ∧ validateGo { defaultV with errorOnPrivate := false }
        (.vStruct (fappend (.fcons ("A") true ("") (.vStr ("x")) .fnil)
          (.fcons ("b") false ("required")
            (.vStruct (.fcons ("C") true ("required") (.vStr ("")) .fnil))
            (.fcons ("D") true ("required") (.vStr ("")) .fnil)))) ("") []
      = validateGo { defaultV with errorOnPrivate := false }
          (.vStruct (fappend (.fcons ("A") true ("") (.vStr ("x")) .fnil)
            (.fcons ("D") true ("required") (.vStr ("")) .fnil))) ("") [] :=
  ⟨⟨by decide, by decide,
      private_field_policy.1 (.fcons ("A") true ("") (.vStr ("x")) .fnil) ("b") ("required")
        (.vStruct (.fcons ("C") true ("required") (.vStr ("")) .fnil))
        (.fcons ("D") true ("required") (.vStr ("")) .fnil) [] (by decide) (by decide)⟩,
    rfl,
    private_field_policy.2 { defaultV with errorOnPrivate := false } rfl
      (.fcons ("A") true ("") (.vStr ("x")) .fnil) ("b") ("required")
      (.vStruct (.fcons ("C") true ("required") (.vStr ("")) .fnil))
      (.fcons ("D") true ("required") (.vStr ("")) .fnil) []⟩

/-- C3: fail-fast error propagation. (1) If every field before `name`
passes and processing the field `name` fails with error `e`, then
validating the struct returns exactly `e`, unchanged, whatever fields
are declared after it. (2) The scope prefix is attached exactly once,
at the failing scalar, as the dotted path accumulated from the
outermost composite. (3) In the nested concrete example the reported
message is the dotted path of the first failing field. -/
theorem fail_fast_first_failure :
    (∀ (v : Validator) (pre : Fields) (name rawTag : String) (fval : Value) (rest : Fields)
       (scope : List String) (e : VErr),
      validateFields v pre scope = none →
      validateGo v fval (trimSpace rawTag) (scope ++ [name]) = some e →
      validateGo v (.vStruct (fappend pre (.fcons name true rawTag fval rest))) ("") scope
        = some e)
    ∧ (∀ (v : Validator) (val : Value) (tag : String) (scope : List String),
      scope ≠ [] →
      validateScalarGo v val tag scope
        = (validateScalarGo v val tag []).map (fun e => .scoped scope e))
    ∧ (validateGo defaultV
        (.vStruct (.fcons ("A") true ("")
          (.vStruct (.fcons ("B") true ("required") (.vStr ("")) .fnil)) .fnil))
        ("") []).map VErr.render
      = some ("A.B: required check failed: value missing") := by
  refine ⟨fun v pre name rawTag fval rest scope e hpre hfail => ?_,
    fun v val tag scope hs => ?_, by decide⟩
  · have hgo : validateGo v (.vStruct (fappend pre (.fcons name true rawTag fval rest)))
        ("") scope
        = validateFields v (fappend pre (.fcons name true rawTag fval rest)) scope := rfl
    rw [hgo, validateFields_append, hpre]
    simp only []
    rw [validateFields]
    simp only [Bool.not_true, Bool.false_eq_true, if_false]
    by_cases hskip : (trimSpace rawTag = "" && kindOf (derefAll fval) != Kind.kStruct) = true
    · exfalso
      rw [Bool.and_eq_true] at hskip
      obtain ⟨ht, hk⟩ := hskip
      have ht2 : trimSpace rawTag = "" := by simpa using ht
      have hk2 : kindOf (derefAll fval) ≠ .kStruct := by simpa using hk
      have hnone : validateGo v fval ("") (scope ++ [name]) = none := by
        rw [validateGo_eq_core, validateCore_scalar v _ _ _ hk2]
        simp
      rw [ht2, hnone] at hfail
      cases hfail
    · simp only [hskip, Bool.false_eq_true, if_false]
      rw [hfail]
  · have hne : scope.isEmpty = false := by
      cases scope with
      | nil => exact absurd rfl hs
      | cons a l => rfl
    cases hp : parseGo v tag with
    | error e2 => simp [validateScalarGo, hp, hne]
    | ok pr =>
      obtain ⟨pairs, v2⟩ := pr
      cases hrc : runChecks v val pairs with
      | none => simp [validateScalarGo, hp, hrc]
      | some e2 => simp [validateScalarGo, hp, hrc, hne]

/-- Witness for C3 at a concrete three-field struct whose second field
is the first failure. -/
theorem fail_fast_witness :
    (validateFields defaultV (.fcons ("A0") true ("") (.vStr ("x")) .fnil) [] = none
      ∧ validateGo defaultV (.vStr ("")) (trimSpace ("required")) [("F")]
          = some (.scoped [("F")] (.checkFailed ("required") .required))
      ∧ validateGo defaultV (.vStruct (fappend (.fcons ("A0") true ("") (.vStr ("x")) .fnil)
            (.fcons ("F") true ("required") (.vStr (""))
              (.fcons ("G") true ("required") (.vStr ("")) .fnil)))) ("") []
          = some (.scoped [("F")] (.checkFailed ("required") .required)))
    ∧ ([("S")] ≠ ([] : List String)
      ∧ validateScalarGo defaultV (.vStr ("")) ("required") [("S")]
          = (validateScalarGo defaultV (.vStr ("")) ("required") []).map
              (fun e => .scoped [("S")] e)) :=
  ⟨⟨by decide, by decide,
      fail_fast_first_failure.1 defaultV (.fcons ("A0") true ("") (.vStr ("x")) .fnil)
        ("F") ("required") (.vStr (""))
        (.fcons ("G") true ("required") (.vStr ("")) .fnil) []
        (.scoped [("F")] (.checkFailed ("required") .required)) (by decide) (by decide)⟩,
    ⟨by decide,
      fail_fast_first_failure.2.1 defaultV (.vStr ("")) ("required") [("S")] (by decide)⟩⟩

/-- A value that is not a pointer is fixed by the fast-forward. -/
theorem derefAll_eq_self (z : Value) (h : kindOf z ≠ .kPtr) : derefAll z = z := by
  cases z with
  | vNilPtr => exact absurd rfl h
  | vPtrTo w => exact absurd rfl h
  | vInvalid => rfl
  | vStr s => rfl
  | vInt n => rfl
  | vUint n => rfl
  | vFloat f => rfl
  | vStruct fs => rfl

/-- A successful checker lookup comes from a registered entry. -/
theorem lookupC_mem (v : Validator) (t : String) (ck : Chk) (h : lookupC v t = some ck) :
    ∃ q ∈ v.checkers, q.1 = t ∧ q.2 = ck := by
  unfold lookupC at h
  cases hf : v.checkers.find? (fun p => p.1 = t) with
  | none => rw [hf] at h; cases h
  | some q =>
    rw [hf] at h
    have hq := List.find?_some hf
    have hmem := List.mem_of_find?_eq_some hf
    refine ⟨q, hmem, by simpa using hq, by simpa using h⟩

/-- A successful maker lookup comes from a registered entry. -/
theorem lookupM_mem (v : Validator) (t : String) (m : Maker) (h : lookupM v t = some m) :
    ∃ q ∈ v.checkerMakers, q.1 = t ∧ q.2 = m := by
  unfold lookupM at h
  cases hf : v.checkerMakers.find? (fun p => p.1 = t) with
  | none => rw [hf] at h; cases h
  | some q =>
    rw [hf] at h
    have hq := List.find?_some hf
    have hmem := List.mem_of_find?_eq_some hf
    refine ⟨q, hmem, by simpa using hq, by simpa using h⟩

/-- No built-in maker is registered under the name `required`, nor
under a name whose base is `required`. -/
theorem maker_name_ne_required (v : Validator) (hm : v.checkerMakers = defaultMakers)
    (mk : String) (m : Maker) (h : lookupM v mk = some m) :
    mk ≠ ("required") ∧ baseName (":") mk ≠ ("required") := by
  obtain ⟨q, hqmem, hq1, _⟩ := lookupM_mem v mk m h
  rw [hm] at hqmem
  rw [← hq1]
  fin_cases hqmem <;> exact ⟨by decide, by decide⟩

/-- The default validator satisfies the registry invariant. -/
theorem reqInv_default : reqInv defaultV :=
  ⟨rfl, rfl, rfl, by decide⟩

/-- The registration performed when parsing materializes a
parameterized check preserves the registry invariant: the cached name
is the full segment, whose base is the maker's name, never
`required`. -/
theorem reqInv_register (v : Validator) (hinv : reqInv v) (tag mk arg : String) (c : Chk)
    (hsp : goSplit tag (":") = [mk, arg]) (m : Maker) (hm : lookupM v mk = some m) :
    reqInv (registerC v tag c) := by
  refine ⟨hinv.1, hinv.2.1, hinv.2.2.1, ?_⟩
  intro p hp hbase
  rcases List.mem_cons.mp hp with rfl | hp2
  · exfalso
    have hb : baseName (":") tag = mk := by
      unfold baseName
      rw [hsp]
    exact (maker_name_ne_required v hinv.2.1 mk m hm).1 (hb.symm.trans hbase)
  · exact hinv.2.2.2 p hp2 hbase

/-- Parsing from a validator with the registry invariant only binds the
`required` checker under display names with base `required`. -/
theorem parseSegs_required_pairs :
    ∀ (segs : List String) (v : Validator), reqInv v →
      ∀ (pairs : List (Chk × String)) (v2 : Validator),
        parseSegs v segs = .ok (pairs, v2) →
        ∀ p ∈ pairs, baseName (":") p.2 = ("required") → p.1 = Chk.required
  | [], v, hinv, pairs, v2, hp => by
    rw [parseSegs] at hp
    cases hp
    intro p hp2
    cases hp2
  | seg :: rest, v, hinv, pairs, v2, hp => by
    rw [parseSegs] at hp
    by_cases h0 : trimSpace seg = ""
    · rw [if_pos h0] at hp
      exact parseSegs_required_pairs rest v hinv pairs v2 hp
    · rw [if_neg h0] at hp
      cases hck : lookupC v (trimSpace seg) with
      | some ck =>
        rw [hck] at hp
        cases hrest : parseSegs v rest with
        | error e => rw [hrest] at hp; cases hp
        | ok pr =>
          obtain ⟨ps, v3⟩ := pr
          rw [hrest] at hp
          rw [Except.ok.injEq, Prod.mk.injEq] at hp
          obtain ⟨hp2, hp3⟩ := hp
          subst hp2
          intro p hmem hbase
          rcases List.mem_cons.mp hmem with rfl | hmem2
          · obtain ⟨q, hqmem, hq1, hq2⟩ := lookupC_mem v (trimSpace seg) ck hck
            have := hinv.2.2.2 q hqmem (by rw [hq1]; exact hbase)
            rw [← hq2, this]
          · exact parseSegs_required_pairs rest v hinv ps v3 hrest p hmem2 hbase
      | none =>
        rw [hck] at hp
        cases hsp : goSplit (trimSpace seg) v.checkArgSep with
        | nil => simp [goContains, hsp] at hp
        | cons a tl =>
          cases tl with
          | nil => simp [goContains, hsp] at hp
          | cons b tl2 =>
            cases tl2 with
            | cons c tl3 => simp [goContains, hsp] at hp
            | nil =>
              by_cases hemp : a = "" ∨ b = ""
              · simp [goContains, hsp, hemp] at hp
              · cases hlm : lookupM v a with
                | none => simp [goContains, hsp, hemp, hlm] at hp
                | some m =>
                  cases hrm : runMaker m b with
                  | error e2 => simp [goContains, hsp, hemp, hlm, hrm] at hp
                  | ok c =>
                    cases hrest : parseSegs (registerC v (trimSpace seg) c) rest with
                    | error e =>
                      simp [goContains, hsp, hemp, hlm, hrm, hrest] at hp
                    | ok pr =>
                      obtain ⟨ps, v3⟩ := pr
                      have hp2 : pairs = (c, a) :: ps ∧ v2 = v3 := by
                        simp [goContains, hsp, hemp, hlm, hrm, hrest] at hp
                        exact ⟨hp.1.symm, hp.2.symm⟩
                      obtain ⟨hpairs, _⟩ := hp2
                      subst hpairs
                      intro p hmem hbase
                      rcases List.mem_cons.mp hmem with rfl | hmem2
                      · exact absurd hbase
                          (maker_name_ne_required v hinv.2.1 a m hlm).2
                      · have hsp2 : goSplit (trimSpace seg) (":") = [a, b] := by
                          rw [← hinv.1]; exact hsp
                        exact parseSegs_required_pairs rest
                          (registerC v (trimSpace seg) c)
                          (reqInv_register v hinv (trimSpace seg) a b c hsp2 m hlm)
                          ps v3 hrest p hmem2 hbase

/-- On two zero values, a check loop that binds no comparison check
behaves identically: non-exempt checks are skipped on both, and the
only other exempt check, `required`, fails on both with the same
missing-value error. -/
theorem runChecks_zero_nocmp (val₁ val₂ : Value) (h1 : isZero val₁ = true)
    (h2 : isZero val₂ = true) :
    ∀ pairs : List (Chk × String),
      (∀ p ∈ pairs, baseName (":") p.2 = ("required") → p.1 = Chk.required) →
      (∀ p ∈ pairs, baseName (":") p.2 ∉ cmpNames) →
      runChecks defaultV val₁ pairs = runChecks defaultV val₂ pairs
  | [], _, _ => rfl
  | (ck, nm) :: rest, hreq, hcmp => by
    have ihr := runChecks_zero_nocmp val₁ val₂ h1 h2 rest
      (fun p hp => hreq p (by simp [hp])) (fun p hp => hcmp p (by simp [hp]))
    rw [runChecks, runChecks]
    by_cases hmem :
        defaultV.dontSkipZeroChecks.contains (baseName defaultV.checkArgSep nm) = true
    · have hmem2 : baseName (":") nm ∈ defaultDontSkipZero := by simpa using hmem
      have hnc := hcmp (ck, nm) (by simp)
      have hbase : baseName (":") nm = ("required") := by
        simp only [defaultDontSkipZero, List.mem_cons, List.not_mem_nil, or_false] at hmem2
        simp only [cmpNames, List.mem_cons, List.not_mem_nil, or_false, not_or] at hnc
        rcases hmem2 with h | h | h | h | h
        · exact h
        · exact absurd h hnc.1
        · exact absurd h hnc.2.1
        · exact absurd h hnc.2.2.1
        · exact absurd h hnc.2.2.2
      have hck : ck = Chk.required := hreq (ck, nm) (by simp) hbase
      subst hck
      simp only [hmem, Bool.not_true, Bool.and_false, Bool.false_eq_true, if_false]
      have hr1 : runChk Chk.required val₁ = some .required := by
        rw [runChk]
        simp [h1]
      have hr2 : runChk Chk.required val₂ = some .required := by
        rw [runChk]
        simp [h2]
      rw [hr1, hr2]
    · have hm : defaultV.dontSkipZeroChecks.contains (baseName defaultV.checkArgSep nm)
          = false := by
        revert hmem
        cases defaultV.dontSkipZeroChecks.contains (baseName defaultV.checkArgSep nm) <;> simp
      simp only [hm, Bool.not_false, Bool.and_true, h1, h2, if_true]
      exact ihr

/-- On two zero values, scalar validation of a check-list binding no
comparison check gives identical results (identical parse, identical
skips, identical `required` failure, identical scope wrap). -/
theorem validateScalar_zero_nocmp (val₁ val₂ : Value) (tag : String) (scope : List String)
    (h1 : isZero val₁ = true) (h2 : isZero val₂ = true)
    (hn : noCmpChecks defaultV tag) :
    validateScalarGo defaultV val₁ tag scope = validateScalarGo defaultV val₂ tag scope := by
  cases hp : parseGo defaultV tag with
  | error e => simp [validateScalarGo, hp]
  | ok pr =>
    obtain ⟨pairs, v2⟩ := pr
    have hreq := parseSegs_required_pairs (goSplit tag defaultV.checkSep) defaultV
      reqInv_default pairs v2 hp
    have hcmp : ∀ p ∈ pairs, baseName (":") p.2 ∉ cmpNames := by
      unfold noCmpChecks at hn
      rw [hp] at hn
      exact hn
    have hrc := runChecks_zero_nocmp val₁ val₂ h1 h2 pairs hreq hcmp
    simp [validateScalarGo, hp, hrc]

/-- C1 (amended): for a field whose reference chain is nil at some
level (its fast-forward ends in the invalid value), validation treats
it like a zero scalar — for any scalar zero value `z` and any
check-list binding no eq/ne/min/max comparison check, validating the
record with the nil-chained field gives exactly the same result (same
skips, same success or failure, same error) as with the field set to
`z`. (With a comparison check bound the results can differ, and for
composite targets traversal stops — see the counterexample.) -/
theorem nilchain_zero_amended
    (w z : Value) (name rawTag : String) (pre post : Fields) (scope : List String)
    (hw : derefAll w = .vInvalid)
    (hz : isZero z = true)
    (hzp : kindOf z ≠ .kPtr) (hzs : kindOf z ≠ .kStruct)
    (hn : noCmpChecks defaultV (trimSpace rawTag)) :
    validateGo defaultV (.vStruct (fappend pre (.fcons name true rawTag w post))) ("") scope
      = validateGo defaultV (.vStruct (fappend pre (.fcons name true rawTag z post)))
          ("") scope := by
  have hgo1 : validateGo defaultV (.vStruct (fappend pre (.fcons name true rawTag w post)))
      ("") scope
      = validateFields defaultV (fappend pre (.fcons name true rawTag w post)) scope := rfl
  have hgo2 : validateGo defaultV (.vStruct (fappend pre (.fcons name true rawTag z post)))
      ("") scope
      = validateFields defaultV (fappend pre (.fcons name true rawTag z post)) scope := rfl
  rw [hgo1, hgo2, validateFields_append, validateFields_append]
  cases validateFields defaultV pre scope with
  | some e => rfl
  | none =>
    simp only []
    rw [validateFields, validateFields]
    simp only [Bool.not_true, Bool.false_eq_true, if_false]
    have hdz : derefAll z = z := derefAll_eq_self z hzp
    by_cases h0 : trimSpace rawTag = ""
    · have hk1 : (trimSpace rawTag = "" && kindOf (derefAll w) != Kind.kStruct) = true := by
        rw [h0, hw]
        decide
      have hk2 : (trimSpace rawTag = "" && kindOf (derefAll z) != Kind.kStruct) = true := by
        rw [h0, hdz]
        simp only [decide_True, Bool.true_and]
        simpa using hzs
      simp only [hk1, hk2, if_true]
    · have hval : validateGo defaultV w (trimSpace rawTag) (scope ++ [name])
          = validateGo defaultV z (trimSpace rawTag) (scope ++ [name]) := by
        rw [validateGo_eq_core, validateGo_eq_core, hw, hdz]
        rw [validateCore_scalar defaultV .vInvalid _ _ (by simp [kindOf]),
          validateCore_scalar defaultV z _ _ hzs]
        rw [if_pos h0, if_pos h0]
        exact validateScalar_zero_nocmp .vInvalid z (trimSpace rawTag) (scope ++ [name])
          rfl hz hn
      have hk1 : (trimSpace rawTag = "" && kindOf (derefAll w) != Kind.kStruct) = false := by
        simp [h0]
      have hk2 : (trimSpace rawTag = "" && kindOf (derefAll z) != Kind.kStruct) = false := by
        simp [h0]
      simp only [hk1, hk2, Bool.false_eq_true, if_false]
      rw [hval]

/-- C1 counterexample: with the check-list `eq:1` on an optional-
reference field of scalar target type, the record whose field is a nil
reference VALIDATES (the comparison checker returns success on the
invalid value), while the record whose field holds the target type's
zero value `0` FAILS with a comparison error — the results are not the
same, contradicting the claim. -/
theorem nilchain_zero_counterexample :
    validateGo defaultV (.vStruct (.fcons ("F") true ("eq:1") .vNilPtr .fnil)) ("") [] = none
    ∧ validateGo defaultV (.vStruct (.fcons ("F") true ("eq:1") (.vInt 0) .fnil)) ("") []
        = some (.scoped [("F")] (.checkFailed ("eq") (.msg ("0 is not equal to 1"))))
    ∧ validateGo defaultV (.vStruct (.fcons ("F") true ("eq:1") .vNilPtr .fnil)) ("") []
        ≠ validateGo defaultV (.vStruct (.fcons ("F") true ("eq:1") (.vInt 0) .fnil)) ("") [] :=
  ⟨by decide, by decide, by decide⟩

/-- Witness for the amended C1 at a doubly-wrapped nil chain against
the zero string, under the check-list `required,uuid`. -/
theorem nilchain_zero_amended_witness :
    (derefAll (.vPtrTo .vNilPtr) = .vInvalid
      ∧ isZero (.vStr ("")) = true
      ∧ kindOf (.vStr ("")) ≠ .kPtr ∧ kindOf (.vStr ("")) ≠ .kStruct)
    ∧ validateGo defaultV
        (.vStruct (.fcons ("F") true ("required,uuid") (.vPtrTo .vNilPtr) .fnil)) ("") []
      = validateGo defaultV
          (.vStruct (.fcons ("F") true ("required,uuid") (.vStr ("")) .fnil)) ("") [] :=
  ⟨⟨rfl, rfl, by decide, by decide⟩,
    nilchain_zero_amended (.vPtrTo .vNilPtr) (.vStr ("")) ("F") ("required,uuid")
      .fnil .fnil [] rfl rfl (by decide) (by decide)
      (by
        show ∀ p ∈ [(Chk.required, ("required")), (Chk.regexC uuidPat, ("uuid"))],
          baseName defaultV.checkArgSep p.2 ∉ cmpNames
        decide)⟩

end Vali
